import Mathlib

/-!
Verification development for the OCSF importer
(`src/datacontract/imports/ocsf_importer.py`).

The Python code is shallowly embedded: JSON-like Python values become the
inductive type `JVal`, Python dicts become insertion-ordered association
lists, the importer's mutable per-instance caches become an explicit state
record `St`, Python exceptions become an explicit `PyError` in `Except`,
and the recursive resolvers take a fuel argument (fuel exhaustion models
Python's `RecursionError`).
-/

namespace Ocsf

/-- JSON-like Python values.  `null` doubles as Python's `None` (which is
what `json.load` produces for JSON `null`, and what `dict.get` returns for
an absent key). -/
inductive JVal where
  | null
  | bool (b : Bool)
  | int (n : Int)
  | str (s : String)
  | arr (elems : List JVal)
  | dict (entries : List (String × JVal))
deriving Repr

/-- Test for the `null` value (Python `v is None`). -/
def JVal.isNull : JVal → Bool
  | .null => true
  | _ => false

/-- Insertion-ordered association list standing for a Python `dict` with
string keys (the shape of every JSON object in an OCSF schema document). -/
abbrev Dict := List (String × JVal)

/-- First value bound to key `k`, or `none`: Python `d[k]` presence. -/
def dfind : Dict → String → Option JVal
  | [], _ => none
  | (k', v) :: rest, k => if k' = k then some v else dfind rest k

/-- Python `d.get(k)`: the bound value, or `None` when the key is absent. -/
def pyGet (d : Dict) (k : String) : JVal :=
  (dfind d k).getD .null

/-- Python `d.get(k, default)`. -/
def pyGetD (d : Dict) (k : String) (default : JVal) : JVal :=
  (dfind d k).getD default

/-- Python truthiness (`if v:`) for the values `JVal` can take. -/
def truthy : JVal → Bool
  | .null => false
  | .bool b => b
  | .int n => n != 0
  | .str s => s != ""
  | .arr [] => false
  | .arr (_ :: _) => true
  | .dict [] => false
  | .dict (_ :: _) => true

/-- Python `d[k] = v` on a dict: updates the value in place when the key is
present (keeping its position), appends otherwise. -/
def dictInsert (d : Dict) (k : String) (v : JVal) : Dict :=
  if (dfind d k).isSome then
    d.map (fun p => if p.1 = k then (p.1, v) else p)
  else d ++ [(k, v)]

/-- Embedding of `OcsfToContract._clean_dict`: keep the pairs whose value
`is not None`. -/
def cleanDict (d : Dict) : Dict :=
  d.filter (fun p => !p.2.isNull)

/-- Embedding of Python `dict(ChainMap(m1, m2))`: iterating the `ChainMap`
updates an empty dict with `m2` and then with `m1`, so the result lists
`m2`'s keys first (with `m1`'s value whenever `m1` also binds the key)
followed by the keys only `m1` binds. -/
def chainMap2 (m1 m2 : Dict) : Dict :=
  (m2.map (fun p =>
      match dfind m1 p.1 with
      | some v => (p.1, v)
      | none => p))
    ++ m1.filter (fun p => (dfind m2 p.1).isNone)

/-- Python exceptions that the importer's code paths can raise.
`recursionError` stands for exhausting the interpreter stack (modelled as
fuel exhaustion); `deprecatedField` is the importer's own control-flow
exception class `DeprecatedField`. -/
inductive PyError where
  | typeError
  | attributeError
  | indexError
  | keyError (k : JVal)
  | recursionError
  | deprecatedField
deriving Repr

/-- Warnings emitted through `log.warning`: one per skipped deprecated
attribute (`get_fields`) and one per `$include` attribute
(`_get_field_args`). -/
inductive Warning where
  | deprecatedW (name : String)
  | includeW (name : String)
deriving Repr, DecidableEq

/-- Scanner for the substitution `html_code.sub("\x60", html)` with
`html_code = re.compile(r"</?code>")`: every non-overlapping occurrence of
`<code>` or `</code>` becomes a backquote. -/
def subCode : List Char → List Char
  | '<' :: 'c' :: 'o' :: 'd' :: 'e' :: '>' :: rest => '`' :: subCode rest
  | '<' :: '/' :: 'c' :: 'o' :: 'd' :: 'e' :: '>' :: rest => '`' :: subCode rest
  | c :: rest => c :: subCode rest
  | [] => []

/-- Splits at the first `>`: returns the characters before it and the
characters after it, or `none` when there is no `>`. -/
def splitAtGt : List Char → Option (List Char × List Char)
  | [] => none
  | '>' :: rest => some ([], rest)
  | c :: rest =>
    match splitAtGt rest with
    | some (body, after) => some (c :: body, after)
    | none => none

/-- Scanner for `html_all.sub("", html)` where `html_all` is the
regular expression matching angle-bracket runs holding at least one
non-`>` character.  Fuel-driven left-to-right scan; the initial fuel is the
string length, which bounds the number of scanning steps. -/
def subAllAux : Nat → List Char → List Char
  | 0, cs => cs
  | _ + 1, [] => []
  | fuel + 1, '<' :: rest =>
    match splitAtGt rest with
    | some ([], _) => '<' :: subAllAux fuel rest
    | some (_ :: _, after) => subAllAux fuel after
    | none => '<' :: subAllAux fuel rest
  | fuel + 1, c :: rest => c :: subAllAux fuel rest

/-- Embedding of `clean_html`: both regex substitutions in sequence.
`re.sub` raises `TypeError` when the argument is not a string — in
particular when an optional `description` key is absent and `spec.get`
produced `None`. -/
def clean_html : JVal → Except PyError String
  | .str s =>
    let s₁ := subCode s.data
    .ok (String.mk (subAllAux s₁.length s₁))
  | _ => .error .typeError

mutual

/-- Python `repr()` of a value, used for elements inside containers
(strings are single-quoted; repr's escaping of quote characters inside a
string is not modelled since no schema value exercises it). -/
def pyRepr : JVal → String
  | .null => "None"
  | .bool true => "True"
  | .bool false => "False"
  | .int n => toString n
  | .str s => "\x27" ++ s ++ "\x27"
  | .arr xs => "[" ++ pyReprList xs ++ "]"
  | .dict kvs => "\x7b" ++ pyReprEntries kvs ++ "\x7d"

/-- Comma-separated `repr`s of list elements. -/
def pyReprList : List JVal → String
  | [] => ""
  | [x] => pyRepr x
  | x :: xs => pyRepr x ++ ", " ++ pyReprList xs

/-- Comma-separated `repr(k): repr(v)` renderings of dict entries. -/
def pyReprEntries : List (String × JVal) → String
  | [] => ""
  | [(k, v)] => "\x27" ++ k ++ "\x27: " ++ pyRepr v
  | (k, v) :: rest => "\x27" ++ k ++ "\x27: " ++ pyRepr v ++ ", " ++ pyReprEntries rest

end

/-- Python `str()` of a value, as used by f-string interpolation
(`f"profile:..."`, `f"#/definitions/..."`): like `repr` except that a
top-level string is rendered without quotes. -/
def pyStr : JVal → String
  | .str s => s
  | v => pyRepr v

/-- Embedding of the module constant `PII_TYPES` (the commented-out
entries of the source literal are absent from the set). -/
def PII_TYPES : List String :=
  ["email_t", "hostname_t", "ip_t", "mac_t", "username_t"]

/-- Embedding of the class attribute `OcsfToContract.__base_types`. -/
def base_types : List (String × String) :=
  [("boolean_t", "boolean"), ("float_t", "float"), ("integer_t", "integer"),
   ("json_t", "string"), ("long_t", "long"), ("string_t", "string")]

/-- Python `self.__base_types.get(true_type)`: `None` when the primitive
name is unrecognized (or not a string). -/
def baseTypesGet : JVal → JVal
  | .str s =>
    match base_types.find? (fun p => p.1 = s) with
    | some p => .str p.2
    | none => .null
  | _ => .null

/-- Python `name in PII_TYPES`. -/
def isPii : JVal → Bool
  | .str s => PII_TYPES.contains s
  | _ => false

/-- Embedding of the module constant `REQUIRED`. -/
def REQUIRED : String := "required"

/-- Embedding of the module constant `INTERNAL_OBJECTS`, verbatim. -/
def INTERNAL_OBJECTS : Dict :=
  [("_dns", .dict
     [("caption", .str "DNS"),
      ("name", .str "_dns"),
      ("description", .str "The Domain Name System (DNS) object represents the shared information associated with the DNS query and answer objects."),
      ("extends", .str "object"),
      ("attributes", .dict
        [("class", .dict
           [("description", .str "The class of resource records being queried. See <a target=\x27_blank\x27 href=\x27https://www.rfc-editor.org/rfc/rfc1035.txt\x27>RFC1035</a>. For example: <code>IN</code>."),
            ("caption", .str "Resource Record Class"),
            ("requirement", .str "recommended")]),
         ("packet_uid", .dict
           [("description", .str "The DNS packet identifier assigned by the program that generated the query. The identifier is copied to the response."),
            ("requirement", .str "recommended")]),
         ("type", .dict
           [("description", .str "The type of resource records being queried. See <a target=\x27_blank\x27 href=\x27https://www.rfc-editor.org/rfc/rfc1035.txt\x27>RFC1035</a>. For example: A, AAAA, CNAME, MX, and NS."),
            ("caption", .str "Resource Record Type"),
            ("requirement", .str "recommended")])])]),
   ("_entity", .dict
     [("caption", .str "Entity"),
      ("name", .str "_entity"),
      ("description", .str "The Entity object is an unordered collection of attributes, with a name and unique identifier. It serves as a base object that defines a set of attributes and default constraints available in all objects that extend it."),
      ("extends", .str "object"),
      ("attributes", .dict
        [("name", .dict
           [("description", .str "The name of the entity."),
            ("requirement", .str "recommended")]),
         ("uid", .dict
           [("description", .str "The unique identifier of the entity."),
            ("requirement", .str "recommended")])]),
      ("constraints", .dict [("at_least_one", .arr [.str "name", .str "uid"])])]),
   ("_resource", .dict
     [("caption", .str "Resource"),
      ("description", .str "The Resource object contains attributes that provide information about a particular resource. It serves as a base object, offering attributes that help identify and classify the resource effectively."),
      ("extends", .str "_entity"),
      ("name", .str "_resource"),
      ("profiles", .arr [.str "data_classification"]),
      ("attributes", .dict
        [("$include", .arr [.str "profiles/data_classification.json"]),
         ("data", .dict
           [("description", .str "Additional data describing the resource."),
            ("requirement", .str "optional")]),
         ("labels", .dict
           [("description", .str "The list of labels/tags associated to a resource."),
            ("requirement", .str "optional")]),
         ("name", .dict [("description", .str "The name of the resource.")]),
         ("type", .dict
           [("description", .str "The resource type as defined by the event source."),
            ("requirement", .str "optional")]),
         ("uid", .dict [("description", .str "The unique identifier of the resource.")])])])]

/-- The sections of a loaded OCSF schema document (`base_schema`) that
the tool reads: `types`, `objects` and `classes`. -/
structure Schema where
  types : Dict
  objects : Dict
  classes : Dict
deriving Repr

/-- Mutable per-instance state of one `OcsfToContract`: the two
memoization caches `ocsf_types` and `ocsf_objects` (keyed by Python
values: `None` or a name) and the log of emitted warnings. -/
structure St where
  tcache : List (JVal × Dict)
  ocache : List (JVal × Dict)
  warnings : List Warning
deriving Repr

/-- Equality of Python dict keys as used by the caches.  The importer only
ever keys them by `None` or by a name taken from the document, so the
numeric `True == 1` coercion of Python is not modelled. -/
def keyEq : JVal → JVal → Bool
  | .null, .null => true
  | .bool a, .bool b => a == b
  | .int a, .int b => a == b
  | .str a, .str b => a == b
  | _, _ => false

/-- Cache lookup (`name in cache` + `cache[name]`). -/
def cfind (c : List (JVal × Dict)) (k : JVal) : Option Dict :=
  match c.find? (fun p => keyEq p.1 k) with
  | some p => some p.2
  | none => none

/-- Cache assignment `cache[name] = v`: update in place when present,
append otherwise. -/
def cacheInsert (c : List (JVal × Dict)) (k : JVal) (v : Dict) : List (JVal × Dict) :=
  if (c.find? (fun p => keyEq p.1 k)).isSome then
    c.map (fun p => if keyEq p.1 k then (k, v) else p)
  else c ++ [(k, v)]

/-- Embedding of `OcsfToContract.__init__`, schema part: the `objects`
section is replaced by `dict(ChainMap(objects, INTERNAL_OBJECTS))`, the
document's own objects taking precedence on a name collision. -/
def initSchema (base : Schema) : Schema :=
  { base with objects := chainMap2 base.objects INTERNAL_OBJECTS }

/-- Embedding of `OcsfToContract.__init__`, cache part:
`ocsf_types = \x7bNone: \x7b\x7d\x7d` and `ocsf_objects = \x7bNone: \x7b\x7d\x7d`. -/
def St.init : St :=
  { tcache := [(.null, [])], ocache := [(.null, [])], warnings := [] }

/-- Python `self.base_schema["types"][name]` for a runtime key value. -/
def typeLookup (sc : Schema) (name : JVal) : Option JVal :=
  match name with
  | .str s => dfind sc.types s
  | _ => none

/-- Python `self.base_schema["objects"][name]` for a runtime key value. -/
def objLookup (sc : Schema) (name : JVal) : Option JVal :=
  match name with
  | .str s => dfind sc.objects s
  | _ => none

/-- Embedding of `OcsfToContract._build_scalar_type`.  Note that both
`min_len` and `max_len` are read from the source key `min_len` (source
lines 157-158), and that `range_` defaults to `[None, None]` when falsy. -/
def _build_scalar_type (sc : Schema) (name : JVal) : Except PyError Dict :=
  match typeLookup sc name with
  | none => .error (.keyError name)
  | some (.dict spec) =>
    let true_type := if truthy (pyGet spec "type") then pyGet spec "type" else name
    match clean_html (pyGet spec "description") with
    | .error e => .error e
    | .ok description =>
      let min_len := pyGet spec "min_len"
      let max_len := pyGet spec "min_len"
      match ((if truthy (pyGet spec "range") then
               match pyGet spec "range" with
               | .arr xs =>
                 match xs.get? 0, xs.get? 1 with
                 | some r0, some r1 => .ok (r0, r1)
                 | _, _ => .error .indexError
               | _ => .error .typeError
             else .ok (JVal.null, JVal.null)) : Except PyError (JVal × JVal)) with
      | .error e => .error e
      | .ok (r0, r1) =>
        let observable_id := pyGet spec "observable"
        .ok (cleanDict
          [("type", baseTypesGet true_type),
           ("description", .str description),
           ("minLength", min_len),
           ("maxLength", max_len),
           ("minimum", r0),
           ("maximum", r1),
           ("observable_id", observable_id),
           ("pii", .bool (isPii name))])
  | some _ => .error .attributeError

/-- Embedding of `OcsfToContract.get_scalar_type`: memoized per type-name
for the lifetime of the importer instance. -/
def get_scalar_type (sc : Schema) (st : St) (name : JVal) : Except PyError Dict × St :=
  match cfind st.tcache name with
  | some d => (.ok d, st)
  | none =>
    match _build_scalar_type sc name with
    | .ok d => (.ok d, { st with tcache := cacheInsert st.tcache name d })
    | .error e => (.error e, st)

/-- Python `v == "required"` (comparison of a runtime value with the
module constant `REQUIRED`). -/
def jvalEqStr : JVal → String → Bool
  | .str a, b => a = b
  | _, _ => false

/-- Python `lst.append(v)` on a list-valued `JVal` (the importer only ever
appends to the list it itself stored under `tags`, so the non-list case
leaves the value unchanged). -/
def arrAppend : JVal → JVal → JVal
  | .arr xs, v => .arr (xs ++ [v])
  | other, _ => other

/-- Python `kwargs["tags"].append(v)`: in-place mutation of the list bound
to the `tags` key. -/
def appendToTags (d : Dict) (v : JVal) : Dict :=
  d.map (fun p => if p.1 = "tags" then (p.1, arrAppend p.2 v) else p)

/-- Source lines 215-221 of `_get_field_args`: the group value is
appended as a tag when truthy, and the `profile:<profile>` tag is
appended under the same `if group:` condition (the profile's own presence
is never tested). -/
def groupProfileTags (spec : Dict) : List JVal :=
  (if truthy (pyGet spec "group") then [pyGet spec "group"] else [])
    ++ (if truthy (pyGet spec "group") then
          [.str ("profile:" ++ pyStr (pyGet spec "profile"))] else [])

/-- The `kwargs` mapping of `_get_field_args` just before the
`dict(ChainMap(kwargs, base))` merge: the title/description/tags scaffold
with the group and profile tags already appended, plus the `observable`
entry when the observable id is truthy (source lines 201-225). -/
def fieldFront (nm : String) (spec : Dict) (description : String) : Dict :=
  let kwargs0 : Dict :=
    [("title", if truthy (pyGet spec "caption") then pyGet spec "caption" else .str nm),
     ("description", .str description),
     ("tags", .arr (groupProfileTags spec))]
  if truthy (pyGet spec "observable") then
    kwargs0 ++ [("observable", pyGet spec "observable")]
  else kwargs0

/-- Source lines 227-236 of `_get_field_args`: a truthy `object_type`
gives the object-reference descriptor, otherwise the base type is the
(memoized) scalar type of the spec's `type` value. -/
def baseResolve (sc : Schema) (st : St) (spec : Dict) : Except PyError Dict × St :=
  if truthy (pyGet spec "object_type") then
    (.ok [("type", .str "object"),
          ("$ref", .str ("#/definitions/" ++ pyStr (pyGet spec "object_type")))], st)
  else get_scalar_type sc st (pyGet spec "type")

/-- Source lines 238-244 of `_get_field_args`: a truthy `is_array` wraps
the resolved base descriptor into the `items` entry of an `array` type. -/
def arrayWrap (spec : Dict) (base0 : Dict) : Dict :=
  if truthy (pyGet spec "is_array") then
    [("type", .str "array"), ("items", .dict base0)]
  else base0

/-- Source lines 248-252 of `_get_field_args`: a truthy `enum` mapping
puts its stringified keys into the `enum` entry (a truthy non-mapping
value would fail at `.keys()`). -/
def enumStep (spec : Dict) (kwargs2 : Dict) : Except PyError Dict :=
  if truthy (pyGet spec "enum") then
    match pyGet spec "enum" with
    | .dict ekvs => .ok (dictInsert kwargs2 "enum" (.arr (ekvs.map (fun p => .str p.1))))
    | _ => .error .attributeError
  else .ok kwargs2

/-- Source lines 254-259 of `_get_field_args`: `requirement == "required"`
sets `required = True`; any other truthy requirement value is appended to
the tags list instead. -/
def requirementStep (spec : Dict) (kwargs3 : Dict) : Dict :=
  if jvalEqStr (pyGet spec "requirement") REQUIRED then
    dictInsert kwargs3 "required" (.bool true)
  else if truthy (pyGet spec "requirement") then
    appendToTags kwargs3 (pyGet spec "requirement")
  else kwargs3

/-- Embedding of `OcsfToContract._get_field_args`.  The steps follow the
source order: kwargs scaffold (whose `description` entry applies
`clean_html`, raising `TypeError` on a missing description, before
anything else), the deprecated check, the `$include` early return, group
and profile tags (`groupProfileTags`), the observable id (`fieldFront`),
base-type resolution (`baseResolve`), array wrapping (`arrayWrap`), the
`dict(ChainMap(kwargs, base))` merge, enum normalization (`enumStep`),
and the requirement mapping (`requirementStep`). -/
def _get_field_args (sc : Schema) (st : St) (name : String) (specV : JVal) :
    Except PyError Dict × St :=
  match specV with
  | .dict spec =>
    match clean_html (pyGet spec "description") with
    | .error e => (.error e, st)
    | .ok description =>
      if truthy (pyGet spec "deprecated") then
        (.error .deprecatedField, st)
      else if name = "$include" then
        (.ok [("title", if truthy (pyGet spec "caption") then pyGet spec "caption" else .str name),
              ("description", .str description), ("tags", .arr [])],
         { st with warnings := st.warnings ++ [.includeW name] })
      else
        match baseResolve sc st spec with
        | (.error e, st₁) => (.error e, st₁)
        | (.ok base0, st₁) =>
          match enumStep spec (chainMap2 (fieldFront name spec description) (arrayWrap spec base0)) with
          | .error e => (.error e, st₁)
          | .ok kwargs3 => (.ok (requirementStep spec kwargs3), st₁)
  | _ => (.error .attributeError, st)

/-- Embedding of `OcsfToContract.get_fields`: translates each attribute in
order, catching the `DeprecatedField` signal as a warning-and-skip; every
other exception propagates.  The resulting `Field(**kwargs)` record is
kept as its keyword mapping (the canonical field model itself is an
external collaborator, see `refName`). -/
def get_fields (sc : Schema) : St → List (String × JVal) → Except PyError Dict × St
  | st, [] => (.ok [], st)
  | st, (name, spec) :: rest =>
    match _get_field_args sc st name spec with
    | (.ok kwargs, st₁) =>
      match get_fields sc st₁ rest with
      | (.ok fields, st₂) => (.ok ((name, .dict kwargs) :: fields), st₂)
      | (.error e, st₂) => (.error e, st₂)
    | (.error .deprecatedField, st₁) =>
      get_fields sc { st₁ with warnings := st₁.warnings ++ [.deprecatedW name] } rest
    | (.error e, st₁) => (.error e, st₁)

/-- The `_clean_dict`-ed own descriptor `this_object` that
`_build_object` builds from an object's spec (source lines 185-192)
before merging it over the resolved base. -/
def thisObjectDescr (name : JVal) (spec : Dict) (description : String)
    (fields : Dict) : Dict :=
  cleanDict
    [("name", name),
     ("title", pyGet spec "caption"),
     ("description", .str description),
     ("type", .str "object"),
     ("fields", .dict fields)]

/-- Embedding of `OcsfToContract._build_object`, parametric in the
recursive resolver `go` used for the `extends` base (so that theorems can
speak about one resolution step).  Follows the source order: object spec
lookup, recursive resolution of `spec.get("extends")`, the own-descriptor
dict literal (whose `description` entry applies `clean_html` and whose
`fields` entry translates `spec["attributes"]`), `_clean_dict`, and the
final `dict(ChainMap(this_object, base_object))` merge. -/
def _build_objectF (sc : Schema) (go : St → JVal → Except PyError Dict × St)
    (st : St) (name : JVal) : Except PyError Dict × St :=
  match objLookup sc name with
  | none => (.error (.keyError name), st)
  | some (.dict spec) =>
    match go st (pyGet spec "extends") with
    | (.error e, st₁) => (.error e, st₁)
    | (.ok base_object, st₁) =>
      match clean_html (pyGet spec "description") with
      | .error e => (.error e, st₁)
      | .ok description =>
        match dfind spec "attributes" with
        | none => (.error (.keyError (.str "attributes")), st₁)
        | some (.dict attrs) =>
          match get_fields sc st₁ attrs with
          | (.error e, st₂) => (.error e, st₂)
          | (.ok fields, st₂) =>
            (.ok (chainMap2 (thisObjectDescr name spec description fields) base_object),
             st₂)
        | some _ => (.error .typeError, st₁)
  | some _ => (.error .attributeError, st)

/-- Embedding of `OcsfToContract.get_object`: memoized per object name;
a cache miss runs `_build_object` (with one unit of fuel consumed for the
recursive `extends` chain) and stores the result. -/
def get_object (sc : Schema) : Nat → St → JVal → Except PyError Dict × St
  | fuel, st, name =>
    match cfind st.ocache name with
    | some d => (.ok d, st)
    | none =>
      match fuel with
      | 0 => (.error .recursionError, st)
      | f + 1 =>
        match _build_objectF sc (fun stx nx => get_object sc f stx nx) st name with
        | (.ok d, st₁) => (.ok d, { st₁ with ocache := cacheInsert st₁.ocache name d })
        | (.error e, st₁) => (.error e, st₁)

/-- Embedding of `OcsfToContract._build_object` itself: one build step
whose recursive base resolution is `get_object` with the given fuel. -/
def _build_object (sc : Schema) (fuel : Nat) (st : St) (name : JVal) :
    Except PyError Dict × St :=
  _build_objectF sc (fun stx nx => get_object sc fuel stx nx) st name

/-- Python `s.startswith(pre)` over character lists (the core
`String.startsWith` is bypassed because it does not reduce in the
kernel): first argument is the candidate start. -/
def charsStart : List Char → List Char → Bool
  | [], _ => true
  | _ :: _, [] => false
  | a :: as, b :: bs => a == b && charsStart as bs

/-- Python `s.split("/")` over character lists: splits at every slash,
keeping empty components like Python does. -/
def splitSlash : List Char → List (List Char)
  | [] => [[]]
  | c :: rest =>
    if c = '/' then [] :: splitSlash rest
    else
      match splitSlash rest with
      | [] => [[c]]
      | g :: gs => (c :: g) :: gs

/-- Modelled from the spec: the canonical field model (pydantic `Field`
of `datacontract.model.data_contract_specification`, an external
collaborator not under `src/`) is kept as its keyword mapping; its `ref`
attribute reads the `$ref` alias and defaults to an absent value.  This
computes the referenced object name of one field exactly as
`get_definitions` does: `ref` must be truthy and start with
`#/definitions/`, and the name is the last `/`-separated component. -/
def refName : JVal → Option String
  | .dict d =>
    match dfind d "$ref" with
    | some (.str r) =>
      if charsStart "#/definitions/".data r.data then
        some (String.mk ((splitSlash r.data).getLastD []))
      else none
    | _ => none
  | _ => none

/-- Python `defn["fields"]` followed by iterating it as a mapping, as
`get_definitions` recurses into a freshly resolved definition. -/
def fieldsOfDefn (d : Dict) : Except PyError (List (String × JVal)) :=
  match dfind d "fields" with
  | some (.dict fs) => .ok fs
  | some _ => .error .typeError
  | none => .error (.keyError (.str "fields"))

/-- Embedding of `OcsfToContract.get_definitions`: walks the fields of one
model, follows each `$ref`, skips names already known, and recurses into a
newly resolved definition's own fields before continuing with the
remaining fields.  Every recursive call consumes one unit of fuel, and the
same fuel feeds the `get_object` resolver. -/
def get_definitions (sc : Schema) :
    Nat → St → List (String × JVal) → List (String × Dict) →
    Except PyError (List (String × Dict)) × St
  | 0, st, _, _ => (.error .recursionError, st)
  | _ + 1, st, [], known => (.ok known, st)
  | fuel + 1, st, (_, fval) :: rest, known =>
    match refName fval with
    | none => get_definitions sc fuel st rest known
    | some obj =>
      if (known.find? (fun p => p.1 = obj)).isSome then
        get_definitions sc fuel st rest known
      else
        match get_object sc fuel st (.str obj) with
        | (.error e, st₁) => (.error e, st₁)
        | (.ok defn, st₁) =>
          match fieldsOfDefn defn with
          | .error e => (.error e, st₁)
          | .ok dfields =>
            match get_definitions sc fuel st₁ dfields (known ++ [(obj, defn)]) with
            | (.error e, st₂) => (.error e, st₂)
            | (.ok known₂, st₂) => get_definitions sc fuel st₂ rest known₂

/-- Modelled from the spec: the canonical contract
(`DataContractSpecification`, an external collaborator not under `src/`)
restricted to the two mappings this importer populates; `models` may be
absent (`None`) on entry. -/
structure DataContractSpecification where
  models : Option (List (String × JVal))
  definitions : List (String × Dict)
deriving Repr

/-- Modelled from the spec: the `fields` attribute of a canonical `Model`
record (kept as its keyword mapping), defaulting to an empty mapping. -/
def fieldsAttr : JVal → List (String × JVal)
  | .dict d =>
    match dfind d "fields" with
    | some (.dict fs) => fs
    | _ => []
  | _ => []

/-- Embedding of the class-filter dict comprehension
`\x7bc: base_schema["classes"][c] for c in ocsf_classes\x7d`: an unknown
requested class name raises `KeyError`. -/
def selectClasses (sc : Schema) : List String → Except PyError (List (String × JVal))
  | [] => .ok []
  | c :: rest =>
    match dfind sc.classes c with
    | none => .error (.keyError (.str c))
    | some v =>
      match selectClasses sc rest with
      | .ok l => .ok ((c, v) :: l)
      | .error e => .error e

/-- Embedding of the per-class loop of `import_ocsfschema`: translate the
class's attributes, build the `Model(**kwargs)` keyword mapping (title
from `name` with the class key as default, markup-stripped description,
type defaulting to `"table"`, and the translated fields) and store it
under the class key. -/
def buildModels (sc : Schema) :
    St → List (String × JVal) → List (String × JVal) →
    Except PyError (List (String × JVal)) × St
  | st, [], acc => (.ok acc, st)
  | st, (name, specV) :: rest, acc =>
    match specV with
    | .dict spec =>
      match dfind spec "attributes" with
      | none => (.error (.keyError (.str "attributes")), st)
      | some (.dict attrs) =>
        match get_fields sc st attrs with
        | (.error e, st₁) => (.error e, st₁)
        | (.ok fields, st₁) =>
          match clean_html (pyGet spec "description") with
          | .error e => (.error e, st₁)
          | .ok description =>
            let kwargs : Dict :=
              [("title", pyGetD spec "name" (.str name)),
               ("description", .str description),
               ("type", pyGetD spec "type" (.str "table")),
               ("fields", .dict fields)]
            buildModels sc st₁ rest (dictInsert acc name (.dict kwargs))
      | some _ => (.error .typeError, st)
    | _ => (.error .attributeError, st)

/-- Embedding of the definitions loop of `import_ocsfschema`: thread one
growing definitions mapping through `get_definitions` for every model. -/
def collectDefs (sc : Schema) (fuel : Nat) :
    St → List (String × JVal) → List (String × Dict) →
    Except PyError (List (String × Dict)) × St
  | st, [], defs => (.ok defs, st)
  | st, (_, m) :: rest, defs =>
    match get_definitions sc fuel st (fieldsAttr m) defs with
    | (.error e, st₁) => (.error e, st₁)
    | (.ok defs₁, st₁) => collectDefs sc fuel st₁ rest defs₁

/-- Embedding of `import_ocsfschema`: normalize an absent `models` mapping
to empty, select the classes (hyphens in a requested name become
underscores; an empty or absent filter selects every class), build one
model per class, then rebuild the shared `definitions` from all models'
fields.  `sc` is the already-initialized schema (see `initSchema`) and
`st` the importer instance's state. -/
def import_ocsfschema (sc : Schema) (fuel : Nat) (dcs : DataContractSpecification)
    (st : St) (ocsf_classes : Option (List String)) :
    Except PyError DataContractSpecification × St :=
  let models0 := dcs.models.getD []
  match ((match ocsf_classes with
          | some cs =>
            if cs.isEmpty then .ok sc.classes
            else selectClasses sc (cs.map (fun c => c.replace "-" "_"))
          | none => .ok sc.classes) : Except PyError (List (String × JVal))) with
  | .error e => (.error e, st)
  | .ok input_models =>
    match buildModels sc st input_models models0 with
    | (.error e, st₁) => (.error e, st₁)
    | (.ok models₁, st₁) =>
      match collectDefs sc fuel st₁ models₁ [] with
      | (.error e, st₂) => (.error e, st₂)
      | (.ok defs, st₂) =>
        (.ok { models := some models₁, definitions := defs }, st₂)

theorem dfind_append (a b : Dict) (k : String) :
    dfind (a ++ b) k = match dfind a k with
      | some v => some v
      | none => dfind b k := by
  induction a with
  | nil => simp [dfind]
  | cons p rest ih =>
    obtain ⟨k', v⟩ := p
    by_cases h : k' = k <;> simp [dfind, h, ih]

theorem dfind_mapValByKey (m : Dict) (g : String → JVal → JVal) (k : String) :
    dfind (m.map (fun p => (p.1, g p.1 p.2))) k = (dfind m k).map (g k) := by
  induction m with
  | nil => simp [dfind]
  | cons p rest ih =>
    obtain ⟨k', v⟩ := p
    by_cases h : k' = k <;> simp [dfind, h, ih]

theorem dfind_filterByKey (m : Dict) (q : String → Bool) (k : String) :
    dfind (m.filter (fun p => q p.1)) k =
      if q k then dfind m k else none := by
  induction m with
  | nil => simp [dfind]
  | cons p rest ih =>
    obtain ⟨k', v⟩ := p
    by_cases h : k' = k
    · subst h
      by_cases hq : q k' <;> simp [dfind, hq, ih]
    · by_cases hq : q k' <;> simp [dfind, h, hq, ih]

theorem dfind_chainMap2 (m1 m2 : Dict) (k : String) :
    dfind (chainMap2 m1 m2) k = match dfind m1 k with
      | some v => some v
      | none => dfind m2 k := by
  have hmap : (m2.map (fun p =>
      match dfind m1 p.1 with
      | some v => (p.1, v)
      | none => p)) = m2.map (fun p => (p.1, match dfind m1 p.1 with
      | some v => v
      | none => p.2)) := by
    apply List.map_congr_left
    intro p _
    cases dfind m1 p.1 <;> rfl
  unfold chainMap2
  rw [hmap, dfind_append, dfind_mapValByKey (g := fun k' v' =>
    match dfind m1 k' with
    | some v => v
    | none => v')]
  rw [show (fun p => (dfind m2 (Prod.fst p)).isNone) = (fun (p : String × JVal) => (dfind m2 p.1).isNone) from rfl]
  rw [dfind_filterByKey (q := fun k' => (dfind m2 k').isNone)]
  cases h1 : dfind m1 k <;> cases h2 : dfind m2 k <;> simp [h1, h2]

theorem dfind_mapIfKey (d : Dict) (key : String) (f : JVal → JVal) (k : String) :
    dfind (d.map (fun p => if p.1 = key then (p.1, f p.2) else p)) k =
      if k = key then (dfind d k).map f else dfind d k := by
  have hfun : (fun (p : String × JVal) => if p.1 = key then (p.1, f p.2) else p)
      = fun p => (p.1, if p.1 = key then f p.2 else p.2) := by
    funext p
    by_cases h : p.1 = key <;> simp [h]
  rw [hfun, dfind_mapValByKey (g := fun k' v' => if k' = key then f v' else v')]
  by_cases h : k = key
  · simp [h]
  · simp only [h, if_false]
    cases dfind d k <;> simp [h]

theorem dfind_dictInsert_ne (d : Dict) (k k' : String) (v : JVal) (h : k' ≠ k) :
    dfind (dictInsert d k v) k' = dfind d k' := by
  unfold dictInsert
  by_cases hk : (dfind d k).isSome
  · rw [if_pos hk, dfind_mapIfKey (f := fun _ => v), if_neg h]
  · rw [if_neg hk, dfind_append]
    cases hd : dfind d k'
    · simp [dfind, Ne.symm h]
    · simp

theorem dfind_appendToTags_ne (d : Dict) (v : JVal) (k : String) (h : k ≠ "tags") :
    dfind (appendToTags d v) k = dfind d k := by
  unfold appendToTags
  rw [show (fun (p : String × JVal) => if p.1 = "tags" then (p.1, arrAppend p.2 v) else p)
      = fun p => if p.1 = "tags" then (p.1, arrAppend p.2 v) else p from rfl,
    dfind_mapIfKey (f := fun w => arrAppend w v), if_neg h]

theorem cleanDict_cons (k₀ : String) (v₀ : JVal) (rest : Dict) :
    cleanDict ((k₀, v₀) :: rest) =
      if v₀.isNull then cleanDict rest else (k₀, v₀) :: cleanDict rest := by
  by_cases h : v₀.isNull <;> simp [cleanDict, h]

theorem cleanDict_nil : cleanDict [] = [] := rfl

theorem dfind_cleanDict_cons_ne (k₀ k : String) (v₀ : JVal) (rest : Dict)
    (h : k₀ ≠ k) :
    dfind (cleanDict ((k₀, v₀) :: rest)) k = dfind (cleanDict rest) k := by
  rw [cleanDict_cons]
  split_ifs
  · rfl
  · simp [dfind, h]

theorem dfind_cleanDict_cons_self (k : String) (v₀ : JVal) (rest : Dict)
    (h : v₀.isNull = false) :
    dfind (cleanDict ((k, v₀) :: rest)) k = some v₀ := by
  rw [cleanDict_cons, h]
  simp [dfind]

/-- C3: for every scalar type name whose spec carries a (non-null)
`min_len` value, the Scalar Type Mapper's descriptor has both its
`minLength` and its `maxLength` entry equal to that `min_len` value; and
the `max_len` source key is never consulted — two type specs that agree on
every key other than `max_len` produce the same descriptor. -/
theorem C3_max_len_read_from_min_len :
    (∀ (sc : Schema) (name v : JVal) (spec d : Dict),
      typeLookup sc name = some (.dict spec) →
      pyGet spec "min_len" = v → v.isNull = false →
      _build_scalar_type sc name = .ok d →
      dfind d "minLength" = some v ∧ dfind d "maxLength" = some v) ∧
    (∀ (sc₁ sc₂ : Schema) (name : JVal) (spec₁ spec₂ : Dict),
      typeLookup sc₁ name = some (.dict spec₁) →
      typeLookup sc₂ name = some (.dict spec₂) →
      (∀ k, k ≠ "max_len" → dfind spec₁ k = dfind spec₂ k) →
      _build_scalar_type sc₁ name = _build_scalar_type sc₂ name) := by
  constructor
  · intro sc name v spec d hlook hv hnull hbuild
    simp only [_build_scalar_type, hlook] at hbuild
    cases hdesc : clean_html (pyGet spec "description") with
    | error e => rw [hdesc] at hbuild; exact absurd hbuild (by simp)
    | ok description =>
      rw [hdesc] at hbuild
      cases hr : ((if truthy (pyGet spec "range") then
               match pyGet spec "range" with
               | .arr xs =>
                 match xs.get? 0, xs.get? 1 with
                 | some r0, some r1 => .ok (r0, r1)
                 | _, _ => .error .indexError
               | _ => .error .typeError
             else .ok (JVal.null, JVal.null)) : Except PyError (JVal × JVal)) with
      | error e => rw [hr] at hbuild; exact absurd hbuild (by simp)
      | ok rr =>
        obtain ⟨r0, r1⟩ := rr
        rw [hr] at hbuild
        simp only [Except.ok.injEq] at hbuild
        subst hbuild
        rw [hv]
        refine ⟨?_, ?_⟩
        · rw [dfind_cleanDict_cons_ne _ _ _ _ (by decide),
            dfind_cleanDict_cons_ne _ _ _ _ (by decide),
            dfind_cleanDict_cons_self _ _ _ hnull]
        · rw [dfind_cleanDict_cons_ne _ _ _ _ (by decide),
            dfind_cleanDict_cons_ne _ _ _ _ (by decide),
            dfind_cleanDict_cons_ne _ _ _ _ (by decide),
            dfind_cleanDict_cons_self _ _ _ hnull]
  · intro sc₁ sc₂ name spec₁ spec₂ h₁ h₂ hagree
    have e : ∀ k, k ≠ "max_len" → pyGet spec₁ k = pyGet spec₂ k := by
      intro k hk
      unfold pyGet
      rw [hagree k hk]
    simp only [_build_scalar_type, h₁, h₂]
    rw [e "type" (by decide), e "description" (by decide),
      e "min_len" (by decide), e "range" (by decide), e "observable" (by decide)]

/-- Concrete schema for the C3 witness: one scalar type `x_t` whose spec
carries `min_len = 5` and `max_len = 99`. -/
def C3sc : Schema :=
  { types := [("x_t", .dict
      [("description", .str "plain"), ("min_len", .int 5), ("max_len", .int 99)])],
    objects := [], classes := [] }

/-- The same schema with the `max_len` key absent from the `x_t` spec. -/
def C3sc' : Schema :=
  { types := [("x_t", .dict
      [("description", .str "plain"), ("min_len", .int 5)])],
    objects := [], classes := [] }

/-- Witness for C3: on `C3sc`, both length bounds of the built descriptor
are the `min_len` value 5, and dropping `max_len` entirely does not change
the descriptor. -/
theorem C3_witness :
    dfind (cleanDict
      [("type", .null), ("description", .str "plain"), ("minLength", .int 5),
       ("maxLength", .int 5), ("minimum", .null), ("maximum", .null),
       ("observable_id", .null), ("pii", .bool false)]) "minLength" = some (.int 5) ∧
    dfind (cleanDict
      [("type", .null), ("description", .str "plain"), ("minLength", .int 5),
       ("maxLength", .int 5), ("minimum", .null), ("maximum", .null),
       ("observable_id", .null), ("pii", .bool false)]) "maxLength" = some (.int 5) ∧
    _build_scalar_type C3sc (.str "x_t") = _build_scalar_type C3sc' (.str "x_t") :=
  ⟨(C3_max_len_read_from_min_len.1 C3sc (.str "x_t") (.int 5)
      [("description", .str "plain"), ("min_len", .int 5), ("max_len", .int 99)]
      (cleanDict
        [("type", .null), ("description", .str "plain"), ("minLength", .int 5),
         ("maxLength", .int 5), ("minimum", .null), ("maximum", .null),
         ("observable_id", .null), ("pii", .bool false)])
      rfl rfl rfl rfl).1,
   (C3_max_len_read_from_min_len.1 C3sc (.str "x_t") (.int 5)
      [("description", .str "plain"), ("min_len", .int 5), ("max_len", .int 99)]
      (cleanDict
        [("type", .null), ("description", .str "plain"), ("minLength", .int 5),
         ("maxLength", .int 5), ("minimum", .null), ("maximum", .null),
         ("observable_id", .null), ("pii", .bool false)])
      rfl rfl rfl rfl).2,
   C3_max_len_read_from_min_len.2 C3sc C3sc' (.str "x_t")
      [("description", .str "plain"), ("min_len", .int 5), ("max_len", .int 99)]
      [("description", .str "plain"), ("min_len", .int 5)]
      rfl rfl (by intro k hk; by_cases h1 : "description" = k <;>
        by_cases h2 : "min_len" = k <;> simp [dfind, h1, h2, Ne.symm hk])⟩

theorem pyGet_of_dfind_none {d : Dict} {k : String} (h : dfind d k = none) :
    pyGet d k = .null := by
  unfold pyGet
  rw [h]
  rfl

theorem field_args_missing_descr (sc : Schema) (st : St) (nm : String) (spec : Dict)
    (h : dfind spec "description" = none) :
    _get_field_args sc st nm (.dict spec) = (.error .typeError, st) := by
  simp only [_get_field_args, pyGet_of_dfind_none h]
  rfl

/-- C10: an attribute spec without a `description` key hits `clean_html`
on the absent value and raises `TypeError` before the deprecated check is
reached; `get_fields` does not catch it (only the deprecated signal is
caught), so one such attribute aborts the enclosing translation, and the
same holds for a description-less object spec (after its base resolves)
and for a description-less class spec (after its fields translate). -/
theorem C10_missing_description_aborts :
    (∀ (sc : Schema) (st : St) (nm : String) (spec : Dict),
      dfind spec "description" = none →
      _get_field_args sc st nm (.dict spec) = (.error .typeError, st)) ∧
    (∀ (sc : Schema) (st : St) (nm : String) (spec : Dict) (rest : List (String × JVal)),
      dfind spec "description" = none →
      get_fields sc st ((nm, .dict spec) :: rest) = (.error .typeError, st)) ∧
    (∀ (sc : Schema) (go : St → JVal → Except PyError Dict × St) (st st₁ : St)
      (name : JVal) (spec base : Dict),
      objLookup sc name = some (.dict spec) →
      dfind spec "description" = none →
      go st (pyGet spec "extends") = (.ok base, st₁) →
      _build_objectF sc go st name = (.error .typeError, st₁)) ∧
    (∀ (sc : Schema) (st st₁ : St) (name : String) (spec attrs fields : Dict)
      (rest acc : List (String × JVal)),
      dfind spec "attributes" = some (.dict attrs) →
      dfind spec "description" = none →
      get_fields sc st attrs = (.ok fields, st₁) →
      buildModels sc st ((name, .dict spec) :: rest) acc = (.error .typeError, st₁)) := by
  refine ⟨field_args_missing_descr, ?_, ?_, ?_⟩
  · intro sc st nm spec rest h
    simp only [get_fields, field_args_missing_descr sc st nm spec h]
  · intro sc go st st₁ name spec base hlook h hgo
    simp only [_build_objectF, hlook, hgo, pyGet_of_dfind_none h]
    rfl
  · intro sc st st₁ name spec attrs fields rest acc hattrs h hfields
    simp only [buildModels, hattrs, hfields, pyGet_of_dfind_none h]
    rfl

/-- Witness for C10: a one-attribute class whose attribute spec is
`\x7b"deprecated": true\x7d` (so the deprecated flag is set but no
description exists) aborts field translation with `TypeError` — not with
the deprecated-skip signal. -/
theorem C10_witness :
    _get_field_args ⟨[], [], []⟩ St.init "a" (.dict [("deprecated", .bool true)])
        = (.error .typeError, St.init) ∧
    get_fields ⟨[], [], []⟩ St.init [("a", .dict [("deprecated", .bool true)])]
        = (.error .typeError, St.init) :=
  ⟨C10_missing_description_aborts.1 ⟨[], [], []⟩ St.init "a"
      [("deprecated", .bool true)] rfl,
   C10_missing_description_aborts.2.1 ⟨[], [], []⟩ St.init "a"
      [("deprecated", .bool true)] [] rfl⟩

theorem dfind_appendToTags_tags (d : Dict) (v : JVal) :
    dfind (appendToTags d v) "tags" = (dfind d "tags").map (fun w => arrAppend w v) := by
  unfold appendToTags
  rw [dfind_mapIfKey (f := fun w => arrAppend w v)]
  simp

/-- Dissection of a successful `_get_field_args` run on a non-`$include`
attribute into the named sub-steps of the translation. -/
theorem field_args_ok_main (sc : Schema) (st st' : St) (nm : String) (spec kwargs : Dict)
    (hnm : nm ≠ "$include")
    (h : _get_field_args sc st nm (.dict spec) = (.ok kwargs, st')) :
    ∃ description base0 kwargs3,
      clean_html (pyGet spec "description") = .ok description ∧
      truthy (pyGet spec "deprecated") = false ∧
      baseResolve sc st spec = (.ok base0, st') ∧
      enumStep spec (chainMap2 (fieldFront nm spec description) (arrayWrap spec base0))
        = .ok kwargs3 ∧
      kwargs = requirementStep spec kwargs3 := by
  simp only [_get_field_args] at h
  cases hdesc : clean_html (pyGet spec "description") with
  | error e => rw [hdesc] at h; exact absurd h (by simp)
  | ok description =>
    rw [hdesc] at h
    simp only [] at h
    by_cases hdep : truthy (pyGet spec "deprecated")
    · rw [if_pos hdep] at h
      exact absurd h (by simp)
    · rw [if_neg hdep, if_neg hnm] at h
      cases hbase : baseResolve sc st spec with
      | mk r st₁ =>
        rw [hbase] at h
        cases r with
        | error e => exact absurd h (by simp)
        | ok base0 =>
          simp only [] at h
          cases henum : enumStep spec
              (chainMap2 (fieldFront nm spec description) (arrayWrap spec base0)) with
          | error e => rw [henum] at h; exact absurd h (by simp)
          | ok kwargs3 =>
            rw [henum] at h
            simp only [Prod.mk.injEq, Except.ok.injEq] at h
            obtain ⟨hk, hst⟩ := h
            subst hst
            exact ⟨description, base0, kwargs3, rfl, by simp [hdep], rfl, henum, hk.symm⟩

theorem dfind_fieldFront_tags (nm : String) (spec : Dict) (description : String) :
    dfind (fieldFront nm spec description) "tags" = some (.arr (groupProfileTags spec)) := by
  unfold fieldFront
  split_ifs <;> simp [dfind, dfind_append]

theorem dfind_fieldFront_observable (nm : String) (spec : Dict) (description : String)
    (h : truthy (pyGet spec "observable") = true) :
    dfind (fieldFront nm spec description) "observable" = some (pyGet spec "observable") := by
  unfold fieldFront
  rw [if_pos h]
  simp [dfind, dfind_append]

theorem dfind_fieldFront_other (nm : String) (spec : Dict) (description : String)
    (k : String) (h1 : k ≠ "title") (h2 : k ≠ "description") (h3 : k ≠ "tags")
    (h4 : k ≠ "observable") :
    dfind (fieldFront nm spec description) k = none := by
  unfold fieldFront
  split_ifs <;>
    simp [dfind, dfind_append, Ne.symm h1, Ne.symm h2, Ne.symm h3, Ne.symm h4]

theorem enumStep_dfind_ne (spec kwargs2 kwargs3 : Dict) (k : String)
    (hk : k ≠ "enum") (h : enumStep spec kwargs2 = .ok kwargs3) :
    dfind kwargs3 k = dfind kwargs2 k := by
  unfold enumStep at h
  split_ifs at h with htr
  · cases he : pyGet spec "enum" <;> rw [he] at h
    all_goals first
      | exact Except.noConfusion h
      | (simp only [Except.ok.injEq] at h; subst h; rw [dfind_dictInsert_ne _ _ _ _ hk])
  · simp only [Except.ok.injEq] at h
    subst h
    rfl

theorem requirementStep_dfind_ne (spec kwargs3 : Dict) (k : String)
    (h1 : k ≠ "required") (h2 : k ≠ "tags") :
    dfind (requirementStep spec kwargs3) k = dfind kwargs3 k := by
  unfold requirementStep
  split_ifs
  · rw [dfind_dictInsert_ne _ _ _ _ h1]
  · rw [dfind_appendToTags_ne _ _ _ h2]
  · rfl

theorem requirementStep_dfind_tags (spec kwargs3 : Dict) (ts : List JVal)
    (h : dfind kwargs3 "tags" = some (.arr ts)) :
    dfind (requirementStep spec kwargs3) "tags" = some (.arr (ts ++
      (if jvalEqStr (pyGet spec "requirement") REQUIRED then []
       else if truthy (pyGet spec "requirement") then [pyGet spec "requirement"] else []))) := by
  unfold requirementStep
  split_ifs with hreq htr
  · rw [dfind_dictInsert_ne _ _ _ _ (by decide), h]
    simp
  · rw [dfind_appendToTags_tags, h]
    simp [arrAppend]
  · rw [h]
    simp

/-- Counterexample for C4 as stated: in the attribute spec the `group`
key is present (with the falsy value `""`) and the `profile` key is
present, yet the translated field's tag list is empty — no group tag and
no `profile:` tag are appended, because the code tests `group`'s
truthiness, not its presence. -/
theorem C4_counterexample :
    (dfind [("description", .str "d"), ("group", .str ""), ("profile", .str "x")]
        "group").isSome = true ∧
    (dfind [("description", .str "d"), ("group", .str ""), ("profile", .str "x")]
        "profile").isSome = true ∧
    _get_field_args ⟨[], [], []⟩ St.init "a"
        (.dict [("description", .str "d"), ("group", .str ""), ("profile", .str "x")])
      = (.ok [("title", .str "a"), ("description", .str "d"), ("tags", .arr [])],
         St.init) ∧
    dfind [("title", .str "a"), ("description", .str "d"), ("tags", .arr [])] "tags"
      = some (.arr []) :=
  ⟨rfl, rfl, rfl, rfl⟩

/-- C4 (amended: presence is read as Python truthiness): for every
non-deprecated, non-`$include` attribute spec that translates
successfully, the tag list is exactly: the group value when the group is
truthy, then `profile:<str(profile)>` exactly when the group is truthy
(in particular a spec with truthy `group` and absent `profile` receives
the tag `profile:None`, and a spec with `profile` present but `group`
absent or falsy receives no profile tag), then the requirement value when
it is truthy and not `"required"`. -/
theorem C4_profile_tag_gated_on_group (sc : Schema) (st st' : St) (nm : String)
    (spec kwargs : Dict) (hnm : nm ≠ "$include")
    (h : _get_field_args sc st nm (.dict spec) = (.ok kwargs, st')) :
    dfind kwargs "tags" = some (.arr (
      (if truthy (pyGet spec "group") then [pyGet spec "group"] else [])
        ++ ((if truthy (pyGet spec "group") then
              [.str ("profile:" ++ pyStr (pyGet spec "profile"))] else [])
        ++ (if jvalEqStr (pyGet spec "requirement") REQUIRED then []
            else if truthy (pyGet spec "requirement") then [pyGet spec "requirement"]
            else [])))) := by
  obtain ⟨description, base0, kwargs3, hdesc, hdep, hbase, henum, hkw⟩ :=
    field_args_ok_main sc st st' nm spec kwargs hnm h
  have htags3 : dfind kwargs3 "tags" = some (.arr (groupProfileTags spec)) := by
    rw [enumStep_dfind_ne spec _ kwargs3 "tags" (by decide) henum,
      dfind_chainMap2, dfind_fieldFront_tags]
  rw [hkw, requirementStep_dfind_tags spec kwargs3 _ htags3]
  unfold groupProfileTags
  rw [List.append_assoc]

/-- Witness for C4's amended theorem: a spec with truthy group `"g1"`,
no `profile` key and requirement `"recommended"` yields exactly the tags
`["g1", "profile:None", "recommended"]`. -/
theorem C4_witness :
    dfind [("title", .str "a"), ("description", .str "d"),
           ("tags", .arr [.str "g1", .str "profile:None", .str "recommended"])] "tags"
      = some (.arr [.str "g1", .str "profile:None", .str "recommended"]) :=
  C4_profile_tag_gated_on_group ⟨[], [], []⟩ St.init St.init "a"
    [("description", .str "d"), ("group", .str "g1"), ("requirement", .str "recommended")]
    [("title", .str "a"), ("description", .str "d"),
     ("tags", .arr [.str "g1", .str "profile:None", .str "recommended"])]
    (by decide) rfl

/-- C5: for a successfully translated non-`$include` attribute with
truthy `is_array`, the field's own type is `array` and its `items` entry
is the previously resolved base descriptor — the object-reference
descriptor `\x7btype: object, $ref: #/definitions/<object_type>\x7d` when
`object_type` is a non-empty string, and the scalar descriptor from the
Scalar Type Mapper when `object_type` is falsy. -/
theorem C5_array_wrapping (sc : Schema) (st st' : St) (nm : String)
    (spec kwargs : Dict) (hnm : nm ≠ "$include")
    (h : _get_field_args sc st nm (.dict spec) = (.ok kwargs, st'))
    (harr : truthy (pyGet spec "is_array") = true) :
    dfind kwargs "type" = some (.str "array") ∧
    (∀ s, pyGet spec "object_type" = .str s → s ≠ "" →
      dfind kwargs "items" = some (.dict
        [("type", .str "object"), ("$ref", .str ("#/definitions/" ++ s))])) ∧
    (truthy (pyGet spec "object_type") = false →
      ∃ base0, get_scalar_type sc st (pyGet spec "type") = (.ok base0, st') ∧
        dfind kwargs "items" = some (.dict base0)) := by
  obtain ⟨description, base0, kwargs3, hdesc, hdep, hbase, henum, hkw⟩ :=
    field_args_ok_main sc st st' nm spec kwargs hnm h
  have htype : dfind kwargs "type" = some (.str "array") := by
    rw [hkw, requirementStep_dfind_ne spec kwargs3 "type" (by decide) (by decide),
      enumStep_dfind_ne spec _ kwargs3 "type" (by decide) henum,
      dfind_chainMap2,
      dfind_fieldFront_other nm spec description "type"
        (by decide) (by decide) (by decide) (by decide)]
    unfold arrayWrap
    rw [if_pos harr]
    rfl
  have hitems : dfind kwargs "items" = some (.dict base0) := by
    rw [hkw, requirementStep_dfind_ne spec kwargs3 "items" (by decide) (by decide),
      enumStep_dfind_ne spec _ kwargs3 "items" (by decide) henum,
      dfind_chainMap2,
      dfind_fieldFront_other nm spec description "items"
        (by decide) (by decide) (by decide) (by decide)]
    unfold arrayWrap
    rw [if_pos harr]
    rfl
  refine ⟨htype, ?_, ?_⟩
  · intro s hs hne
    unfold baseResolve at hbase
    rw [hs] at hbase
    rw [if_pos (by simp [truthy, hne])] at hbase
    simp only [Prod.mk.injEq, Except.ok.injEq] at hbase
    rw [hitems, ← hbase.1]
    rfl
  · intro hot
    unfold baseResolve at hbase
    rw [if_neg (by simp [hot])] at hbase
    exact ⟨base0, hbase, hitems⟩

/-- Witness for C5: an attribute spec with `is_array = true` and
`object_type = "foo"` translates to a field of type `array` whose `items`
is `\x7btype: object, $ref: "#/definitions/foo"\x7d`. -/
theorem C5_witness :
    dfind [("type", .str "array"),
           ("items", .dict [("type", .str "object"), ("$ref", .str "#/definitions/foo")]),
           ("title", .str "a"), ("description", .str "d"), ("tags", .arr [])] "type"
      = some (.str "array") ∧
    dfind [("type", .str "array"),
           ("items", .dict [("type", .str "object"), ("$ref", .str "#/definitions/foo")]),
           ("title", .str "a"), ("description", .str "d"), ("tags", .arr [])] "items"
      = some (.dict [("type", .str "object"), ("$ref", .str "#/definitions/foo")]) := by
  have h := C5_array_wrapping ⟨[], [], []⟩ St.init St.init "a"
    [("description", .str "d"), ("object_type", .str "foo"), ("is_array", .bool true)]
    [("type", .str "array"),
     ("items", .dict [("type", .str "object"), ("$ref", .str "#/definitions/foo")]),
     ("title", .str "a"), ("description", .str "d"), ("tags", .arr [])]
    (by decide) rfl rfl
  exact ⟨h.1, h.2.1 "foo" rfl (by decide)⟩

/-- Counterexample for C8 as stated: the spec carries the observable id 0
(the key is present with an integer value), yet the translated field has
no `observable` entry — the code gates on Python truthiness, and 0 is
falsy. -/
theorem C8_counterexample :
    (dfind [("description", .str "d"), ("observable", .int 0)] "observable").isSome
      = true ∧
    pyGet [("description", .str "d"), ("observable", .int 0)] "observable" = .int 0 ∧
    _get_field_args ⟨[], [], []⟩ St.init "a"
        (.dict [("description", .str "d"), ("observable", .int 0)])
      = (.ok [("title", .str "a"), ("description", .str "d"), ("tags", .arr [])],
         St.init) ∧
    dfind [("title", .str "a"), ("description", .str "d"), ("tags", .arr [])]
        "observable" = none :=
  ⟨rfl, rfl, rfl, rfl⟩

/-- C8 (amended: presence is read as Python truthiness): for every
successfully translated non-`$include` attribute spec whose `observable`
value is truthy (any non-zero integer), the field carries that observable
id under the `observable` key. -/
theorem C8_observable_carried_when_truthy (sc : Schema) (st st' : St) (nm : String)
    (spec kwargs : Dict) (hnm : nm ≠ "$include")
    (h : _get_field_args sc st nm (.dict spec) = (.ok kwargs, st'))
    (hobs : truthy (pyGet spec "observable") = true) :
    dfind kwargs "observable" = some (pyGet spec "observable") := by
  obtain ⟨description, base0, kwargs3, hdesc, hdep, hbase, henum, hkw⟩ :=
    field_args_ok_main sc st st' nm spec kwargs hnm h
  rw [hkw, requirementStep_dfind_ne spec kwargs3 "observable" (by decide) (by decide),
    enumStep_dfind_ne spec _ kwargs3 "observable" (by decide) henum,
    dfind_chainMap2, dfind_fieldFront_observable nm spec description hobs]

/-- Witness for C8's amended theorem: observable id 7 is carried through. -/
theorem C8_witness :
    dfind [("title", .str "a"), ("description", .str "d"), ("tags", .arr []),
           ("observable", .int 7)] "observable" = some (.int 7) :=
  C8_observable_carried_when_truthy ⟨[], [], []⟩ St.init St.init "a"
    [("description", .str "d"), ("observable", .int 7)]
    [("title", .str "a"), ("description", .str "d"), ("tags", .arr []),
     ("observable", .int 7)]
    (by decide) rfl rfl

theorem find?_insert_map (k : JVal) (v : Dict) (h : keyEq k k = true) :
    ∀ c : List (JVal × Dict), (c.find? (fun p => keyEq p.1 k)).isSome = true →
      ((c.map (fun p => if keyEq p.1 k then (k, v) else p)).find?
        (fun p => keyEq p.1 k)) = some (k, v) := by
  intro c
  induction c with
  | nil => intro hex; simp [List.find?] at hex
  | cons p rest ih =>
    intro hex
    cases hk : keyEq p.1 k with
    | true => simp [List.find?, hk, h]
    | false =>
      simp only [List.find?, hk, cond_false] at hex
      have hif : (if keyEq p.1 k = true then (k, v) else p) = p := by rw [hk]; simp
      rw [List.map_cons, hif]
      simp only [List.find?, hk, cond_false]
      exact ih hex

theorem find?_append_single (k : JVal) (v : Dict) (h : keyEq k k = true) :
    ∀ c : List (JVal × Dict), c.find? (fun p => keyEq p.1 k) = none →
      (c ++ [(k, v)]).find? (fun p => keyEq p.1 k) = some (k, v) := by
  intro c
  induction c with
  | nil => intro _; simp [List.find?, h]
  | cons p rest ih =>
    intro hnone
    cases hk : keyEq p.1 k with
    | true => simp only [List.find?, hk, cond_true] at hnone; exact absurd hnone (by simp)
    | false =>
      simp only [List.find?, hk, cond_false] at hnone
      simp only [List.cons_append, List.find?, hk, cond_false]
      exact ih hnone

theorem cfind_cacheInsert_self (c : List (JVal × Dict)) (k : JVal) (v : Dict)
    (h : keyEq k k = true) : cfind (cacheInsert c k v) k = some v := by
  unfold cacheInsert cfind
  by_cases hp : (c.find? (fun p => keyEq p.1 k)).isSome
  · rw [if_pos hp, find?_insert_map k v h c hp]
  · rw [if_neg hp, find?_append_single k v h c
      (Option.not_isSome_iff_eq_none.mp hp)]

theorem build_objectF_ok_name_str (sc : Schema)
    (go : St → JVal → Except PyError Dict × St) (st st₁ : St) (name : JVal) (d : Dict)
    (h : _build_objectF sc go st name = (.ok d, st₁)) : ∃ s, name = .str s := by
  cases name
  case str s => exact ⟨s, rfl⟩
  all_goals simp [_build_objectF, objLookup] at h

theorem get_object_hit (sc : Schema) (fuel : Nat) (st : St) (name : JVal) (d : Dict)
    (h : cfind st.ocache name = some d) :
    get_object sc fuel st name = (.ok d, st) := by
  cases fuel <;> simp [get_object, h]

theorem get_object_ok_cached (sc : Schema) (fuel : Nat) (st st' : St) (name : JVal)
    (d : Dict) (h : get_object sc fuel st name = (.ok d, st')) :
    cfind st'.ocache name = some d := by
  cases hc : cfind st.ocache name with
  | some d₀ =>
    rw [get_object_hit sc fuel st name d₀ hc] at h
    simp only [Prod.mk.injEq, Except.ok.injEq] at h
    rw [← h.2, hc, h.1]
  | none =>
    cases fuel with
    | zero =>
      rw [show get_object sc 0 st name = (.error .recursionError, st) by
        simp [get_object, hc]] at h
      exact absurd h (by simp)
    | succ f =>
      rw [show get_object sc (f + 1) st name =
          (match _build_objectF sc (fun a b => get_object sc f a b) st name with
           | (.ok d₀, st₁) => (.ok d₀, { st₁ with ocache := cacheInsert st₁.ocache name d₀ })
           | (.error e, st₁) => (.error e, st₁)) by
        simp [get_object, hc]] at h
      cases hb : _build_objectF sc (fun a b => get_object sc f a b) st name with
      | mk r st₁ =>
        rw [hb] at h
        cases r with
        | error e => exact absurd h (by simp)
        | ok d₀ =>
          simp only [Prod.mk.injEq, Except.ok.injEq] at h
          obtain ⟨s, hs⟩ := build_objectF_ok_name_str sc _ st st₁ name d₀ hb
          rw [← h.2, ← h.1]
          subst hs
          exact cfind_cacheInsert_self st₁.ocache (.str s) d₀ (by simp [keyEq])

/-- C7: within one import, (i) once an object name has resolved, any later
`get_object` on it — at any fuel — returns the identical memoized
descriptor and leaves the state untouched; (ii) likewise for scalar type
names; (iii) from the freshly initialized caches, resolving the "no base"
sentinel `None` returns the empty descriptor without touching the state;
and (iv) the empty descriptor is a (right) identity of the
`dict(ChainMap(this, base))` object merge. -/
theorem C7_memoization_idempotent :
    (∀ (sc : Schema) (fuel : Nat) (st st' : St) (name : JVal) (d : Dict),
      get_object sc fuel st name = (.ok d, st') →
      ∀ fuel₂, get_object sc fuel₂ st' name = (.ok d, st')) ∧
    (∀ (sc : Schema) (st st' : St) (name : JVal) (d : Dict),
      get_scalar_type sc st name = (.ok d, st') →
      get_scalar_type sc st' name = (.ok d, st')) ∧
    (∀ (sc : Schema) (fuel : Nat), get_object sc fuel St.init .null = (.ok [], St.init)) ∧
    (∀ d : Dict, chainMap2 d [] = d) := by
  refine ⟨?_, ?_, ?_, ?_⟩
  · intro sc fuel st st' name d h fuel₂
    exact get_object_hit sc fuel₂ st' name d (get_object_ok_cached sc fuel st st' name d h)
  · intro sc st st' name d h
    unfold get_scalar_type at h ⊢
    cases hc : cfind st.tcache name with
    | some d₀ =>
      rw [hc] at h
      simp only [Prod.mk.injEq, Except.ok.injEq] at h
      rw [← h.2, hc, h.1]
    | none =>
      rw [hc] at h
      cases hb : _build_scalar_type sc name with
      | error e => rw [hb] at h; exact absurd h (by simp)
      | ok d₀ =>
        rw [hb] at h
        simp only [Prod.mk.injEq, Except.ok.injEq] at h
        have hs : ∃ s, name = .str s := by
          cases name
          case str s => exact ⟨s, rfl⟩
          all_goals simp [_build_scalar_type, typeLookup] at hb
        obtain ⟨s, hs⟩ := hs
        subst hs
        rw [← h.2]
        simp only []
        rw [cfind_cacheInsert_self st.tcache (.str s) d₀ (by simp [keyEq]), h.1]
  · intro sc fuel
    exact get_object_hit sc fuel St.init .null [] rfl
  · intro d
    unfold chainMap2
    simp [dfind, List.filter_eq_self]

/-- Witness for C7: a concrete one-object schema; the first resolution of
`"o"` populates the cache, the second returns the same descriptor with
the state unchanged (even with zero fuel), the sentinel resolves to the
empty descriptor, and the merge identity at a concrete dict. -/
theorem C7_witness :
    get_object
      ⟨[], [("o", .dict [("description", .str "x"), ("attributes", .dict [])])], []⟩
      0
      { tcache := [(.null, [])],
        ocache := [(.null, []),
          (.str "o", [("name", .str "o"), ("description", .str "x"),
                      ("type", .str "object"), ("fields", .dict [])])],
        warnings := [] }
      (.str "o")
      = (.ok [("name", .str "o"), ("description", .str "x"),
              ("type", .str "object"), ("fields", .dict [])],
         { tcache := [(.null, [])],
           ocache := [(.null, []),
             (.str "o", [("name", .str "o"), ("description", .str "x"),
                         ("type", .str "object"), ("fields", .dict [])])],
           warnings := [] }) ∧
    get_object ⟨[], [], []⟩ 3 St.init .null = (.ok [], St.init) ∧
    chainMap2 [("a", .int 1), ("b", .str "z")] [] = [("a", .int 1), ("b", .str "z")] :=
  ⟨C7_memoization_idempotent.1
      ⟨[], [("o", .dict [("description", .str "x"), ("attributes", .dict [])])], []⟩
      5 St.init _ (.str "o") _ rfl 0,
   C7_memoization_idempotent.2.2.1 ⟨[], [], []⟩ 3,
   C7_memoization_idempotent.2.2.2 [("a", .int 1), ("b", .str "z")]⟩

/-- The attribute name a warning is about. -/
def warnName : Warning → String
  | .deprecatedW n => n
  | .includeW n => n

theorem dfind_none_iff (l : Dict) (k : String) :
    dfind l k = none ↔ k ∉ l.map Prod.fst := by
  induction l with
  | nil => simp [dfind]
  | cons p rest ih =>
    obtain ⟨k₀, v₀⟩ := p
    by_cases h : k₀ = k
    · simp [dfind, h]
    · simp [dfind, h, ih, Ne.symm h]

theorem get_fields_cons_ok (sc : Schema) (st st₁ : St) (n : String) (sp : JVal)
    (kwargs : Dict) (rest : List (String × JVal))
    (h : _get_field_args sc st n sp = (.ok kwargs, st₁)) :
    get_fields sc st ((n, sp) :: rest) =
      match get_fields sc st₁ rest with
      | (.ok fs, st₂) => (.ok ((n, .dict kwargs) :: fs), st₂)
      | (.error e, st₂) => (.error e, st₂) := by
  simp only [get_fields, h]

theorem get_fields_cons_dep (sc : Schema) (st st₁ : St) (n : String) (sp : JVal)
    (rest : List (String × JVal))
    (h : _get_field_args sc st n sp = (.error .deprecatedField, st₁)) :
    get_fields sc st ((n, sp) :: rest) =
      get_fields sc { st₁ with warnings := st₁.warnings ++ [.deprecatedW n] } rest := by
  simp only [get_fields, h]

theorem get_fields_cons_err (sc : Schema) (st st₁ : St) (n : String) (sp : JVal)
    (e : PyError) (rest : List (String × JVal))
    (h : _get_field_args sc st n sp = (.error e, st₁)) (hne : e ≠ .deprecatedField) :
    get_fields sc st ((n, sp) :: rest) = (.error e, st₁) := by
  cases e <;> simp only [get_fields, h]
  exact absurd rfl hne

theorem get_fields_append (sc : Schema) (pre rest : List (String × JVal)) :
    ∀ st, get_fields sc st (pre ++ rest) =
      match get_fields sc st pre with
      | (.ok f₁, st₁) =>
        (match get_fields sc st₁ rest with
         | (.ok f₂, st₂) => (.ok (f₁ ++ f₂), st₂)
         | (.error e, st₂) => (.error e, st₂))
      | (.error e, st₁) => (.error e, st₁) := by
  induction pre with
  | nil =>
    intro st
    simp only [List.nil_append, get_fields]
    cases h : get_fields sc st rest with
    | mk r st₂ => cases r <;> simp
  | cons p pre' ih =>
    intro st
    obtain ⟨n, sp⟩ := p
    simp only [List.cons_append, get_fields]
    cases hf : _get_field_args sc st n sp with
    | mk r st₁ =>
      cases r with
      | ok kwargs =>
        simp only [List.append_eq]
        rw [ih st₁]
        cases h1 : get_fields sc st₁ pre' with
        | mk r1 stA =>
          cases r1 with
          | ok f₁ =>
            simp only []
            cases h2 : get_fields sc stA rest with
            | mk r2 stB => cases r2 <;> simp
          | error e => rfl
      | error e =>
        cases e
        case deprecatedField =>
          try simp only [List.append_eq]
          exact ih _
        all_goals rfl

theorem get_fields_keys (sc : Schema) :
    ∀ (l : List (String × JVal)) (st st' : St) (fs : Dict),
      get_fields sc st l = (.ok fs, st') →
      ∀ x, x ∈ fs.map Prod.fst → x ∈ l.map Prod.fst := by
  intro l
  induction l with
  | nil =>
    intro st st' fs h x hx
    simp only [get_fields, Prod.mk.injEq, Except.ok.injEq] at h
    rw [← h.1] at hx
    simp at hx
  | cons p rest ih =>
    intro st st' fs h x hx
    obtain ⟨n, sp⟩ := p
    cases hf : _get_field_args sc st n sp with
    | mk r st₁ =>
      cases r with
      | ok kwargs =>
        rw [get_fields_cons_ok sc st st₁ n sp kwargs rest hf] at h
        cases h2 : get_fields sc st₁ rest with
        | mk r2 st₂ =>
          rw [h2] at h
          cases r2 with
          | ok f₂ =>
            simp only [Prod.mk.injEq, Except.ok.injEq] at h
            rw [← h.1] at hx
            simp only [List.map_cons, List.mem_cons] at hx ⊢
            cases hx with
            | inl he => exact Or.inl he
            | inr he => exact Or.inr (ih st₁ st₂ f₂ h2 x he)
          | error e => exact absurd h (by simp)
      | error e =>
        by_cases he : e = PyError.deprecatedField
        · subst he
          rw [get_fields_cons_dep sc st st₁ n sp rest hf] at h
          simp only [List.map_cons, List.mem_cons]
          exact Or.inr (ih _ st' fs h x hx)
        · rw [get_fields_cons_err sc st st₁ n sp e rest hf he] at h
          exact absurd h (by simp)

theorem field_args_warnings (sc : Schema) (st : St) (nm : String) (sp : JVal)
    (r : Except PyError Dict) (st₁ : St)
    (h : _get_field_args sc st nm sp = (r, st₁)) :
    ∃ Δ, st₁.warnings = st.warnings ++ Δ ∧ ∀ w ∈ Δ, warnName w = nm := by
  cases sp <;> simp only [_get_field_args] at h
  case dict spec =>
    cases hdesc : clean_html (pyGet spec "description") with
    | error e =>
      rw [hdesc] at h
      simp only [Prod.mk.injEq] at h
      exact ⟨[], by simp [← h.2], by simp⟩
    | ok description =>
      rw [hdesc] at h
      simp only [] at h
      by_cases hdep : truthy (pyGet spec "deprecated")
      · rw [if_pos hdep] at h
        simp only [Prod.mk.injEq] at h
        exact ⟨[], by simp [← h.2], by simp⟩
      · rw [if_neg hdep] at h
        by_cases hnm : nm = "$include"
        · rw [if_pos hnm] at h
          simp only [Prod.mk.injEq] at h
          refine ⟨[.includeW nm], by rw [← h.2], by simp [warnName]⟩
        · rw [if_neg hnm] at h
          cases hb : baseResolve sc st spec with
          | mk rb stb =>
            have hwb : stb.warnings = st.warnings := by
              unfold baseResolve at hb
              split_ifs at hb
              · simp only [Prod.mk.injEq] at hb
                rw [← hb.2]
              · unfold get_scalar_type at hb
                cases hc : cfind st.tcache (pyGet spec "type") with
                | some d => rw [hc] at hb; simp only [Prod.mk.injEq] at hb; rw [← hb.2]
                | none =>
                  rw [hc] at hb
                  cases hs : _build_scalar_type sc (pyGet spec "type") <;>
                    rw [hs] at hb <;> simp only [Prod.mk.injEq] at hb <;> rw [← hb.2]
            rw [hb] at h
            cases rb with
            | error e =>
              simp only [Prod.mk.injEq] at h
              exact ⟨[], by simp [← h.2, hwb], by simp⟩
            | ok base0 =>
              simp only [] at h
              cases he : enumStep spec
                  (chainMap2 (fieldFront nm spec description) (arrayWrap spec base0)) <;>
                rw [he] at h <;> simp only [Prod.mk.injEq] at h <;>
                exact ⟨[], by simp [← h.2, hwb], by simp⟩
  all_goals
    simp only [Prod.mk.injEq] at h
    exact ⟨[], by simp [← h.2], by simp⟩

theorem get_fields_warnings (sc : Schema) :
    ∀ (l : List (String × JVal)) (st : St) (r : Except PyError Dict) (st' : St),
      get_fields sc st l = (r, st') →
      ∃ Δ, st'.warnings = st.warnings ++ Δ ∧ ∀ w ∈ Δ, warnName w ∈ l.map Prod.fst := by
  intro l
  induction l with
  | nil =>
    intro st r st' h
    simp only [get_fields, Prod.mk.injEq] at h
    exact ⟨[], by simp [← h.2], by simp⟩
  | cons p rest ih =>
    intro st r st' h
    obtain ⟨n, sp⟩ := p
    simp only [get_fields] at h
    cases hf : _get_field_args sc st n sp with
    | mk rf st₁ =>
      rw [hf] at h
      try simp only [] at h
      obtain ⟨Δ₁, hw₁, hn₁⟩ := field_args_warnings sc st n sp rf st₁ hf
      cases rf with
      | ok kwargs =>
        simp only [] at h
        cases h2 : get_fields sc st₁ rest with
        | mk r2 st₂ =>
          rw [h2] at h
          obtain ⟨Δ₂, hw₂, hn₂⟩ := ih st₁ r2 st₂ h2
          have hst' : st'.warnings = st₂.warnings := by
            cases r2 <;> simp only [Prod.mk.injEq] at h <;> rw [← h.2]
          refine ⟨Δ₁ ++ Δ₂, by rw [hst', hw₂, hw₁, List.append_assoc], ?_⟩
          intro w hw
          rcases List.mem_append.mp hw with hw | hw
          · simp only [List.map_cons, List.mem_cons]
            exact Or.inl (hn₁ w hw)
          · simp only [List.map_cons, List.mem_cons]
            exact Or.inr (hn₂ w hw)
      | error e =>
        cases e
        case deprecatedField =>
          obtain ⟨Δ₂, hw₂, hn₂⟩ := ih { st₁ with warnings := st₁.warnings ++ [.deprecatedW n] } r st' h
          refine ⟨Δ₁ ++ ([.deprecatedW n] ++ Δ₂), ?_, ?_⟩
          · rw [hw₂]
            simp only [hw₁]
            simp [List.append_assoc]
          · intro w hw
            simp only [List.map_cons, List.mem_cons]
            rcases List.mem_append.mp hw with hw | hw
            · exact Or.inl (hn₁ w hw)
            · rcases List.mem_append.mp hw with hw | hw
              · simp only [List.mem_singleton] at hw
                subst hw
                exact Or.inl rfl
              · exact Or.inr (hn₂ w hw)
        all_goals
          simp only [Prod.mk.injEq] at h
          refine ⟨Δ₁, by rw [← h.2, hw₁], ?_⟩
          intro w hw
          simp only [List.map_cons, List.mem_cons]
          exact Or.inl (hn₁ w hw)

theorem field_args_deprecated (sc : Schema) (st : St) (nm : String) (spec : Dict)
    (ds : String) (hdesc : pyGet spec "description" = .str ds)
    (hdep : truthy (pyGet spec "deprecated") = true) :
    _get_field_args sc st nm (.dict spec) = (.error .deprecatedField, st) := by
  simp only [_get_field_args, hdesc, clean_html, hdep, if_true]

/-- Counterexample for C6 as stated: an attribute spec with
`deprecated = true` but no `description` key aborts `get_fields` with a
`TypeError` (raised by the markup stripper before the deprecated check),
records no warning, and the attribute is not merely skipped — so a
deprecated attribute can surface as a hard failure. -/
theorem C6_counterexample :
    truthy (pyGet [("deprecated", .bool true)] "deprecated") = true ∧
    get_fields ⟨[], [], []⟩ St.init [("a", .dict [("deprecated", .bool true)])]
      = (.error .typeError, St.init) ∧
    St.init.warnings = [] :=
  ⟨rfl, rfl, rfl⟩

/-- C6 (amended: restricted to deprecated attribute specs that carry a
string `description`, the only ones that actually reach the deprecated
check): such an attribute never aborts the enclosing translation — the
run continues with exactly the remaining attributes from the state
extended by one deprecation warning — and when the rest of the run
succeeds, the attribute is absent from the resulting fields mapping and
exactly one deprecation warning for it has been recorded. -/
theorem C6_deprecated_skip (sc : Schema) (st st₁ : St)
    (pre post : List (String × JVal)) (nm : String) (spec f₁ : Dict) (ds : String)
    (hdesc : pyGet spec "description" = .str ds)
    (hdep : truthy (pyGet spec "deprecated") = true)
    (hnodup : ((pre ++ (nm, JVal.dict spec) :: post).map Prod.fst).Nodup)
    (hpre : get_fields sc st pre = (.ok f₁, st₁)) :
    get_fields sc st (pre ++ (nm, .dict spec) :: post)
      = (match get_fields sc
            { st₁ with warnings := st₁.warnings ++ [.deprecatedW nm] } post with
         | (.ok f₂, st₂) => (.ok (f₁ ++ f₂), st₂)
         | (.error e, st₂) => (.error e, st₂)) ∧
    (∀ f₂ st₂,
      get_fields sc { st₁ with warnings := st₁.warnings ++ [.deprecatedW nm] } post
        = (.ok f₂, st₂) →
      dfind (f₁ ++ f₂) nm = none ∧
      st₂.warnings.count (.deprecatedW nm) = st.warnings.count (.deprecatedW nm) + 1) := by
  have hmid : get_fields sc st₁ ((nm, JVal.dict spec) :: post)
      = get_fields sc { st₁ with warnings := st₁.warnings ++ [.deprecatedW nm] } post :=
    get_fields_cons_dep sc st₁ st₁ nm (.dict spec) post
      (field_args_deprecated sc st₁ nm spec ds hdesc hdep)
  have hkeys : (pre.map Prod.fst).Nodup ∧ nm ∉ pre.map Prod.fst ∧
      nm ∉ post.map Prod.fst := by
    rw [List.map_append, List.nodup_append] at hnodup
    obtain ⟨h1, h2, h3⟩ := hnodup
    simp only [List.map_cons, List.nodup_cons] at h2
    exact ⟨h1, fun hmem => h3 hmem (by simp), h2.1⟩
  have hmain : get_fields sc st (pre ++ (nm, .dict spec) :: post)
      = (match get_fields sc
            { st₁ with warnings := st₁.warnings ++ [.deprecatedW nm] } post with
         | (.ok f₂, st₂) => (.ok (f₁ ++ f₂), st₂)
         | (.error e, st₂) => (.error e, st₂)) := by
    rw [get_fields_append sc pre ((nm, .dict spec) :: post) st, hpre]
    simp only []
    rw [hmid]
  refine ⟨hmain, ?_⟩
  intro f₂ st₂ hpost
  constructor
  · rw [dfind_append]
    have hf₁ : dfind f₁ nm = none := by
      rw [dfind_none_iff]
      intro hmem
      exact hkeys.2.1 (get_fields_keys sc pre st st₁ f₁ hpre nm hmem)
    have hf₂ : dfind f₂ nm = none := by
      rw [dfind_none_iff]
      intro hmem
      exact hkeys.2.2 (get_fields_keys sc post _ st₂ f₂ hpost nm hmem)
    rw [hf₁, hf₂]
  · obtain ⟨Δ₁, hw₁, hn₁⟩ := get_fields_warnings sc pre st (.ok f₁) st₁ hpre
    obtain ⟨Δ₂, hw₂, hn₂⟩ := get_fields_warnings sc post
      { st₁ with warnings := st₁.warnings ++ [.deprecatedW nm] } (.ok f₂) st₂ hpost
    have hc₁ : Δ₁.count (Warning.deprecatedW nm) = 0 := by
      rw [List.count_eq_zero]
      intro hmem
      exact hkeys.2.1 (by simpa [warnName] using hn₁ _ hmem)
    have hc₂ : Δ₂.count (Warning.deprecatedW nm) = 0 := by
      rw [List.count_eq_zero]
      intro hmem
      exact hkeys.2.2 (by simpa [warnName] using hn₂ _ hmem)
    rw [hw₂]
    simp only [hw₁]
    simp [List.count_append, hc₁, hc₂, List.count_singleton]

/-- Witness for C6's amended theorem: translating
`\x7bkeep1, dep (deprecated), keep2\x7d` skips `dep`, keeps the two other
attributes, and records exactly one deprecation warning for `dep`. -/
theorem C6_witness :
    (get_fields ⟨[], [], []⟩ St.init
        [("keep1", .dict [("description", .str "k1")]),
         ("dep", .dict [("description", .str "old"), ("deprecated", .bool true)]),
         ("keep2", .dict [("description", .str "k2")])]
      = (.ok [("keep1", .dict [("title", .str "keep1"), ("description", .str "k1"),
                               ("tags", .arr [])]),
              ("keep2", .dict [("title", .str "keep2"), ("description", .str "k2"),
                               ("tags", .arr [])])],
         { tcache := [(.null, [])], ocache := [(.null, [])],
           warnings := [.deprecatedW "dep"] })) ∧
    dfind [("keep1", .dict [("title", .str "keep1"), ("description", .str "k1"),
                            ("tags", .arr [])]),
           ("keep2", .dict [("title", .str "keep2"), ("description", .str "k2"),
                            ("tags", .arr [])])] "dep" = none ∧
    List.count (Warning.deprecatedW "dep") [Warning.deprecatedW "dep"]
      = List.count (Warning.deprecatedW "dep") ([] : List Warning) + 1 := by
  have h := C6_deprecated_skip ⟨[], [], []⟩ St.init
    { tcache := [(.null, [])], ocache := [(.null, [])], warnings := [] }
    [("keep1", .dict [("description", .str "k1")])]
    [("keep2", .dict [("description", .str "k2")])]
    "dep" [("description", .str "old"), ("deprecated", .bool true)]
    [("keep1", .dict [("title", .str "keep1"), ("description", .str "k1"),
                      ("tags", .arr [])])]
    "old" rfl rfl (by simp) rfl
  have h2 := h.2
    [("keep2", .dict [("title", .str "keep2"), ("description", .str "k2"),
                      ("tags", .arr [])])]
    { tcache := [(.null, [])], ocache := [(.null, [])],
      warnings := [.deprecatedW "dep"] } rfl
  exact ⟨h.1, h2.1, h2.2⟩

/-- C1: resolving an object definition merges the object's own cleaned
descriptor over the resolved base with `dict(ChainMap(this, base))`, so
every top-level key present on the own descriptor (name, title,
description, type, fields) entirely replaces the base's same-named key.
In particular the `fields` entry of the result is exactly the translation
of the object's own attributes — a shallow override, not a union with the
base's fields. -/
theorem C1_shallow_override (sc : Schema)
    (go : St → JVal → Except PyError Dict × St) (st st' : St) (name : JVal)
    (d : Dict) (h : _build_objectF sc go st name = (.ok d, st')) :
    ∃ spec base st₁ description attrs ownFields,
      objLookup sc name = some (.dict spec) ∧
      go st (pyGet spec "extends") = (.ok base, st₁) ∧
      clean_html (pyGet spec "description") = .ok description ∧
      dfind spec "attributes" = some (.dict attrs) ∧
      get_fields sc st₁ attrs = (.ok ownFields, st') ∧
      d = chainMap2 (thisObjectDescr name spec description ownFields) base ∧
      (∀ k, (dfind (thisObjectDescr name spec description ownFields) k).isSome = true →
        dfind d k = dfind (thisObjectDescr name spec description ownFields) k) ∧
      dfind d "fields" = some (.dict ownFields) := by
  cases hlook : objLookup sc name with
  | none =>
    simp only [_build_objectF, hlook] at h
    exact absurd h (by simp)
  | some specV =>
    cases specV with
    | dict spec =>
      simp only [_build_objectF, hlook] at h
      cases hgo : go st (pyGet spec "extends") with
      | mk rb st₁ =>
        rw [hgo] at h
        cases rb with
        | error e => exact absurd h (by simp)
        | ok base =>
          simp only [] at h
          cases hdesc : clean_html (pyGet spec "description") with
          | error e => rw [hdesc] at h; exact absurd h (by simp)
          | ok description =>
            rw [hdesc] at h
            simp only [] at h
            cases hattrs : dfind spec "attributes" with
            | none => rw [hattrs] at h; exact absurd h (by simp)
            | some attrsV =>
              rw [hattrs] at h
              cases attrsV with
              | dict attrs =>
                simp only [] at h
                cases hflds : get_fields sc st₁ attrs with
                | mk rf st₂ =>
                  rw [hflds] at h
                  cases rf with
                  | error e => exact absurd h (by simp)
                  | ok ownFields =>
                    simp only [Prod.mk.injEq, Except.ok.injEq] at h
                    obtain ⟨hd, hst⟩ := h
                    subst hst
                    have hfieldsThis :
                        dfind (thisObjectDescr name spec description ownFields) "fields"
                          = some (.dict ownFields) := by
                      unfold thisObjectDescr
                      rw [dfind_cleanDict_cons_ne _ _ _ _ (by decide),
                        dfind_cleanDict_cons_ne _ _ _ _ (by decide),
                        dfind_cleanDict_cons_ne _ _ _ _ (by decide),
                        dfind_cleanDict_cons_ne _ _ _ _ (by decide),
                        dfind_cleanDict_cons_self "fields" (.dict ownFields) [] rfl]
                    have hover : ∀ k,
                        (dfind (thisObjectDescr name spec description ownFields) k).isSome
                          = true →
                        dfind d k
                          = dfind (thisObjectDescr name spec description ownFields) k := by
                      intro k hk
                      rw [← hd, dfind_chainMap2]
                      cases hthis :
                          dfind (thisObjectDescr name spec description ownFields) k
                      · rw [hthis] at hk; simp at hk
                      · rfl
                    exact ⟨spec, base, st₁, description, attrs, ownFields,
                      rfl, hgo, hdesc, hattrs, hflds, hd.symm, hover,
                      by rw [hover "fields" (by rw [hfieldsThis]; rfl), hfieldsThis]⟩
              | null => exact absurd h (by simp)
              | bool b => exact absurd h (by simp)
              | int n => exact absurd h (by simp)
              | str s => exact absurd h (by simp)
              | arr xs => exact absurd h (by simp)
    | null =>
      simp only [_build_objectF, hlook] at h
      exact absurd h (by simp)
    | bool b =>
      simp only [_build_objectF, hlook] at h
      exact absurd h (by simp)
    | int n =>
      simp only [_build_objectF, hlook] at h
      exact absurd h (by simp)
    | str s' =>
      simp only [_build_objectF, hlook] at h
      exact absurd h (by simp)
    | arr xs =>
      simp only [_build_objectF, hlook] at h
      exact absurd h (by simp)

/-- Concrete schema for the C1 witness: base object `b` with attributes
`\x7ba, b\x7d` and derived object `d` (`extends = "b"`) with its own
attribute `\x7bc\x7d`. -/
def C1sc : Schema :=
  { types := [],
    objects :=
      [("b", .dict
        [("caption", .str "Base"),
         ("description", .str "base object"),
         ("attributes", .dict
           [("a", .dict [("description", .str "field a")]),
            ("b", .dict [("description", .str "field b")])])]),
       ("d", .dict
        [("caption", .str "Derived"),
         ("description", .str "derived object"),
         ("extends", .str "b"),
         ("attributes", .dict
           [("c", .dict [("description", .str "field c")])])])],
    classes := [] }

/-- The translated field `c` of the derived object in `C1sc`. -/
def C1cfield : Dict :=
  [("title", .str "c"), ("description", .str "field c"), ("tags", .arr [])]

/-- The resolved descriptor of base object `b` in `C1sc`. -/
def C1bdescr : Dict :=
  [("name", .str "b"), ("title", .str "Base"), ("description", .str "base object"),
   ("type", .str "object"),
   ("fields", .dict
     [("a", .dict [("title", .str "a"), ("description", .str "field a"),
                   ("tags", .arr [])]),
      ("b", .dict [("title", .str "b"), ("description", .str "field b"),
                   ("tags", .arr [])])])]

/-- The resolved descriptor of derived object `d` in `C1sc`. -/
def C1ddescr : Dict :=
  [("name", .str "d"), ("title", .str "Derived"),
   ("description", .str "derived object"), ("type", .str "object"),
   ("fields", .dict [("c", .dict C1cfield)])]

/-- The importer state after building `d` in `C1sc` (the base `b` was
memoized on the way). -/
def C1st' : St :=
  { tcache := [(.null, [])],
    ocache := [(.null, []), (.str "b", C1bdescr)],
    warnings := [] }

/-- Witness for C1: although the base `b` resolves with fields
`\x7ba, b\x7d`, the derived object `d` resolves with fields `\x7bc\x7d`
only — its own `fields` entry entirely replaces the base's. -/
theorem C1_witness :
    get_object C1sc 5 St.init (.str "b") = (.ok C1bdescr,
      { tcache := [(.null, [])], ocache := [(.null, []), (.str "b", C1bdescr)],
        warnings := [] }) ∧
    dfind C1bdescr "fields" = some (.dict
      [("a", .dict [("title", .str "a"), ("description", .str "field a"),
                    ("tags", .arr [])]),
       ("b", .dict [("title", .str "b"), ("description", .str "field b"),
                    ("tags", .arr [])])]) ∧
    _build_object C1sc 5 St.init (.str "d") = (.ok C1ddescr, C1st') ∧
    dfind C1ddescr "fields" = some (.dict [("c", .dict C1cfield)]) := by
  refine ⟨rfl, rfl, rfl, ?_⟩
  obtain ⟨spec, base, st₁, dsc, attrs, ownFields, h1, h2, h3, h4, h5, h6, h7, h8⟩ :=
    C1_shallow_override C1sc (fun a b => get_object C1sc 5 a b) St.init C1st'
      (.str "d") C1ddescr rfl
  exact h8.trans
    ((h8 : some (JVal.dict [("c", JVal.dict C1cfield)])
        = some (JVal.dict ownFields))).symm

/-- The document of claim C9, verbatim: its `classes` section is exactly
the single class `login` with name `Login` and one attribute `user`
whose `object_type` is `_entity`, nothing else.  (A minimal `objects`
section providing the root `object` base — which `_entity` extends — is
included so that the run can even reach field translation; without it
the run dies earlier on a `KeyError` for `object`.) -/
def C9doc : Schema :=
  { types := [],
    objects := [("object", .dict
      [("caption", .str "Object"),
       ("description", .str "An unordered collection of attributes."),
       ("attributes", .dict [])])],
    classes := [("login", .dict
      [("name", .str "Login"),
       ("attributes", .dict
         [("user", .dict [("object_type", .str "_entity")])])])] }

/-- Counterexample for C9 as stated: importing the claim's document (no
class filter) does not produce the described contract — it aborts with a
`TypeError`, because the `user` attribute spec has no `description` and
the markup stripper is applied to the absent value. -/
theorem C9_counterexample :
    dfind C9doc.classes "login" = some (.dict
      [("name", .str "Login"),
       ("attributes", .dict
         [("user", .dict [("object_type", .str "_entity")])])]) ∧
    import_ocsfschema (initSchema C9doc) 20 ⟨none, []⟩ St.init none
      = (.error .typeError, St.init) :=
  ⟨rfl, rfl⟩

/-- The C9 document amended with the `description` keys the code requires
(on the class and on its one attribute). -/
def C9amended : Schema :=
  { types := [],
    objects := [("object", .dict
      [("caption", .str "Object"),
       ("description", .str "An unordered collection of attributes."),
       ("attributes", .dict [])])],
    classes := [("login", .dict
      [("name", .str "Login"),
       ("description", .str "A login event."),
       ("attributes", .dict
         [("user", .dict
           [("description", .str "The user."),
            ("object_type", .str "_entity")])])])] }

/-- The translated `user` field of the amended C9 run. -/
def C9userField : Dict :=
  [("type", .str "object"), ("$ref", .str "#/definitions/_entity"),
   ("title", .str "user"), ("description", .str "The user."), ("tags", .arr [])]

/-- The `login` model of the amended C9 run. -/
def C9loginModel : Dict :=
  [("title", .str "Login"), ("description", .str "A login event."),
   ("type", .str "table"), ("fields", .dict [("user", .dict C9userField)])]

/-- The resolved `_entity` definition of the amended C9 run (from the
injected `INTERNAL_OBJECTS`, merged over the root `object` base). -/
def C9entityDescr : Dict :=
  [("name", .str "_entity"), ("title", .str "Entity"),
   ("description", .str "The Entity object is an unordered collection of attributes, with a name and unique identifier. It serves as a base object that defines a set of attributes and default constraints available in all objects that extend it."),
   ("type", .str "object"),
   ("fields", .dict
     [("name", .dict [("title", .str "name"),
        ("description", .str "The name of the entity."),
        ("tags", .arr [.str "recommended"])]),
      ("uid", .dict [("title", .str "uid"),
        ("description", .str "The unique identifier of the entity."),
        ("tags", .arr [.str "recommended"])])])]

/-- The resolved root `object` descriptor of the amended C9 run. -/
def C9objectDescr : Dict :=
  [("name", .str "object"), ("title", .str "Object"),
   ("description", .str "An unordered collection of attributes."),
   ("type", .str "object"), ("fields", .dict [])]

set_option maxRecDepth 100000 in
/-- C9 (amended: every spec the run touches carries the `description` the
code unconditionally strips markup from): importing the document with no
class filter produces a contract with exactly one model `login`, whose
single field `user` has type `object` and `$ref "#/definitions/_entity"`,
and whose definitions mapping has exactly the `_entity` entry (from the
injected internal object definitions) containing the fields `name` and
`uid`. -/
theorem C9_end_to_end :
    import_ocsfschema (initSchema C9amended) 20 ⟨none, []⟩ St.init none
      = (.ok { models := some [("login", .dict C9loginModel)],
               definitions := [("_entity", C9entityDescr)] },
         { tcache := [(.null, [])],
           ocache := [(.null, []), (.str "object", C9objectDescr),
                      (.str "_entity", C9entityDescr)],
           warnings := [] }) ∧
    dfind C9loginModel "fields" = some (.dict [("user", .dict C9userField)]) ∧
    dfind C9userField "type" = some (.str "object") ∧
    dfind C9userField "$ref" = some (.str "#/definitions/_entity") ∧
    (dfind C9entityDescr "fields").isSome = true ∧
    dfind [("name", .dict [("title", .str "name"),
        ("description", .str "The name of the entity."),
        ("tags", .arr [.str "recommended"])]),
      ("uid", .dict [("title", .str "uid"),
        ("description", .str "The unique identifier of the entity."),
        ("tags", .arr [.str "recommended"])])] "name" ≠ none ∧
    dfind [("name", .dict [("title", .str "name"),
        ("description", .str "The name of the entity."),
        ("tags", .arr [.str "recommended"])]),
      ("uid", .dict [("title", .str "uid"),
        ("description", .str "The unique identifier of the entity."),
        ("tags", .arr [.str "recommended"])])] "uid" ≠ none :=
  ⟨rfl, rfl, rfl, rfl, rfl, by simp [dfind], by simp [dfind]⟩

/-- The referenced-object names occurring in a fields mapping. -/
def refsOf (fields : List (String × JVal)) : List String :=
  fields.filterMap (fun p => refName p.2)

/-- Reachability of an object name through `$ref` edges, as the
Definition Collector explores them: either a field of the walked
`fields` mapping references the name directly, or a collected definition
(one not already known on entry) references it from its own fields. -/
inductive Reaches (kn : List String) (defs : List (String × Dict))
    (fields : List (String × JVal)) : String → Prop
  | base {fn : String} {f : JVal} {n : String} :
      (fn, f) ∈ fields → refName f = some n → Reaches kn defs fields n
  | step {m : String} {dm : Dict} {fs : List (String × JVal)} {fn : String}
      {f : JVal} {n : String} :
      Reaches kn defs fields m → m ∉ kn → (m, dm) ∈ defs →
      fieldsOfDefn dm = .ok fs → (fn, f) ∈ fs → refName f = some n →
      Reaches kn defs fields n

theorem reaches_mono {kn₁ kn₂ : List String} {defs₁ defs₂ : List (String × Dict)}
    {fields₁ fields₂ : List (String × JVal)} {n : String}
    (h : Reaches kn₁ defs₁ fields₁ n)
    (hkn : ∀ x, x ∈ kn₂ → x ∈ kn₁)
    (hdefs : ∀ p, p ∈ defs₁ → p ∈ defs₂)
    (hfields : ∀ p, p ∈ fields₁ → p ∈ fields₂) :
    Reaches kn₂ defs₂ fields₂ n := by
  induction h with
  | base hf hr => exact Reaches.base (hfields _ hf) hr
  | step hm hnot hmem hfd hf hr ih =>
    exact Reaches.step ih (fun hx => hnot (hkn _ hx)) (hdefs _ hmem) hfd hf hr

/-- Transfer of reachability out of the nested walk of one freshly
collected definition `(obj, dm)`: anything reachable from `dm`'s fields
(with `obj` additionally known) is reachable from the original fields,
provided some original field references `obj`. -/
theorem reaches_transfer {kn : List String} {defs : List (String × Dict)}
    {fields dfields : List (String × JVal)} {obj fn₀ : String} {f₀ : JVal}
    {dm : Dict} {n : String}
    (h : Reaches (kn ++ [obj]) defs dfields n)
    (hf₀ : (fn₀, f₀) ∈ fields) (hr₀ : refName f₀ = some obj)
    (hobj : obj ∉ kn) (hmem : (obj, dm) ∈ defs)
    (hfd : fieldsOfDefn dm = .ok dfields) :
    Reaches kn defs fields n := by
  induction h with
  | base hf hr =>
    exact Reaches.step (Reaches.base hf₀ hr₀) hobj hmem hfd hf hr
  | step hm hnot hmemm hfdm hf hr ih =>
    exact Reaches.step ih (fun hx => hnot (List.mem_append_left _ hx)) hmemm hfdm hf hr

theorem mem_keys_of_mem {α : Type} {m : String} {d : α} {l : List (String × α)}
    (h : (m, d) ∈ l) : m ∈ l.map Prod.fst :=
  List.mem_map.mpr ⟨(m, d), h, rfl⟩

theorem entry_unique {α : Type} {l : List (String × α)} {m : String} {d₁ d₂ : α}
    (hnd : (l.map Prod.fst).Nodup) (h₁ : (m, d₁) ∈ l) (h₂ : (m, d₂) ∈ l) :
    d₁ = d₂ := by
  induction l with
  | nil => exact absurd h₁ (by simp)
  | cons p rest ih =>
    simp only [List.map_cons, List.nodup_cons] at hnd
    rcases List.mem_cons.mp h₁ with he₁ | he₁ <;>
      rcases List.mem_cons.mp h₂ with he₂ | he₂
    · exact congrArg Prod.snd (he₁.trans he₂.symm)
    · exact absurd ((congrArg Prod.fst he₁) ▸ mem_keys_of_mem he₂) hnd.1
    · exact absurd ((congrArg Prod.fst he₂) ▸ mem_keys_of_mem he₁) hnd.1
    · exact ih hnd.2 he₁ he₂

theorem find?_key_isSome_iff {α : Type} (l : List (String × α)) (k : String) :
    (l.find? (fun p => p.1 = k)).isSome = true ↔ k ∈ l.map Prod.fst := by
  induction l with
  | nil => simp [List.find?]
  | cons p rest ih =>
    by_cases h : p.1 = k
    · simp [List.find?, h]
    · rw [List.find?_cons]
      have hd : (decide (p.1 = k)) = false := by simp [h]
      rw [hd]
      simp only [cond_false, List.map_cons, List.mem_cons]
      rw [ih]
      constructor
      · exact Or.inr
      · rintro (he | he)
        · exact absurd he.symm h
        · exact he

theorem buildF_mono (sc : Schema) (go₁ go₂ : St → JVal → Except PyError Dict × St)
    (hgo : ∀ st n r st', go₁ st n = (r, st') → r ≠ .error .recursionError →
      go₂ st n = (r, st'))
    (st st' : St) (name : JVal) (r : Except PyError Dict)
    (h : _build_objectF sc go₁ st name = (r, st'))
    (hr : r ≠ .error .recursionError) :
    _build_objectF sc go₂ st name = (r, st') := by
  cases hlook : objLookup sc name with
  | none =>
    simp only [_build_objectF, hlook] at h ⊢
    exact h
  | some specV =>
    cases specV
    case dict spec =>
      simp only [_build_objectF, hlook] at h ⊢
      cases hgo₁ : go₁ st (pyGet spec "extends") with
      | mk rb st₁ =>
        rw [hgo₁] at h
        cases rb with
        | error e =>
          have h' : ((Except.error e : Except PyError Dict), st₁) = (r, st') := h
          simp only [Prod.mk.injEq] at h'
          have hne : (Except.error e : Except PyError Dict) ≠ .error .recursionError := by
            rw [h'.1]
            exact hr
          rw [hgo _ _ _ _ hgo₁ hne]
          exact h
        | ok base =>
          rw [hgo _ _ _ _ hgo₁ (by simp)]
          exact h
    all_goals
      simp only [_build_objectF, hlook] at h ⊢
      exact h

theorem get_object_mono (sc : Schema) :
    ∀ fuel fuel', fuel ≤ fuel' →
    ∀ st name r st', get_object sc fuel st name = (r, st') →
    r ≠ .error .recursionError → get_object sc fuel' st name = (r, st') := by
  intro fuel
  induction fuel with
  | zero =>
    intro fuel' _ st name r st' h hr
    cases hc : cfind st.ocache name with
    | some d =>
      rw [get_object_hit sc 0 st name d hc] at h
      rw [get_object_hit sc fuel' st name d hc]
      exact h
    | none =>
      rw [show get_object sc 0 st name = (.error .recursionError, st) by
        simp [get_object, hc]] at h
      simp only [Prod.mk.injEq] at h
      exact absurd h.1.symm hr
  | succ f ih =>
    intro fuel' hle st name r st' h hr
    cases hc : cfind st.ocache name with
    | some d =>
      rw [get_object_hit sc (f + 1) st name d hc] at h
      rw [get_object_hit sc fuel' st name d hc]
      exact h
    | none =>
      cases fuel' with
      | zero => exact absurd hle (by omega)
      | succ f' =>
        have hff : f ≤ f' := by omega
        rw [show get_object sc (f + 1) st name =
            (match _build_objectF sc (fun a b => get_object sc f a b) st name with
             | (.ok d₀, st₁) => (.ok d₀, { st₁ with ocache := cacheInsert st₁.ocache name d₀ })
             | (.error e, st₁) => (.error e, st₁)) by simp [get_object, hc]] at h
        rw [show get_object sc (f' + 1) st name =
            (match _build_objectF sc (fun a b => get_object sc f' a b) st name with
             | (.ok d₀, st₁) => (.ok d₀, { st₁ with ocache := cacheInsert st₁.ocache name d₀ })
             | (.error e, st₁) => (.error e, st₁)) by simp [get_object, hc]]
        cases hb : _build_objectF sc (fun a b => get_object sc f a b) st name with
        | mk rb st₁ =>
          rw [hb] at h
          have hbne : rb ≠ .error .recursionError := by
            intro hrb
            subst hrb
            have h' : ((Except.error PyError.recursionError : Except PyError Dict), st₁)
                = (r, st') := h
            simp only [Prod.mk.injEq] at h'
            exact hr h'.1.symm
          rw [buildF_mono sc _ _ (fun a b rr ss hg hn => ih f' hff a b rr ss hg hn)
            st st₁ name rb hb hbne]
          exact h

theorem gd_cons_none (sc : Schema) (f : Nat) (st : St) (fn : String) (fv : JVal)
    (rest : List (String × JVal)) (known : List (String × Dict))
    (h : refName fv = none) :
    get_definitions sc (f + 1) st ((fn, fv) :: rest) known
      = get_definitions sc f st rest known := by
  simp [get_definitions, h]

theorem gd_cons_known (sc : Schema) (f : Nat) (st : St) (fn : String) (fv : JVal)
    (obj : String) (rest : List (String × JVal)) (known : List (String × Dict))
    (h : refName fv = some obj)
    (hk : (known.find? (fun p => p.1 = obj)).isSome = true) :
    get_definitions sc (f + 1) st ((fn, fv) :: rest) known
      = get_definitions sc f st rest known := by
  simp [get_definitions, h, hk]

theorem gd_cons_new (sc : Schema) (f : Nat) (st : St) (fn : String) (fv : JVal)
    (obj : String) (rest : List (String × JVal)) (known : List (String × Dict))
    (h : refName fv = some obj)
    (hk : (known.find? (fun p => p.1 = obj)).isSome = false) :
    get_definitions sc (f + 1) st ((fn, fv) :: rest) known
      = match get_object sc f st (.str obj) with
        | (.error e, st₁) => (.error e, st₁)
        | (.ok defn, st₁) =>
          match fieldsOfDefn defn with
          | .error e => (.error e, st₁)
          | .ok dfields =>
            match get_definitions sc f st₁ dfields (known ++ [(obj, defn)]) with
            | (.error e, st₂) => (.error e, st₂)
            | (.ok known₂, st₂) => get_definitions sc f st₂ rest known₂ := by
  simp [get_definitions, h, hk]

theorem get_definitions_mono (sc : Schema) :
    ∀ fuel fuel', fuel ≤ fuel' →
    ∀ st fields known r st', get_definitions sc fuel st fields known = (r, st') →
    r ≠ .error .recursionError → get_definitions sc fuel' st fields known = (r, st') := by
  intro fuel
  induction fuel with
  | zero =>
    intro fuel' _ st fields known r st' h hr
    simp only [get_definitions, Prod.mk.injEq] at h
    exact absurd h.1.symm hr
  | succ f ih =>
    intro fuel' hle st fields known r st' h hr
    cases fuel' with
    | zero => exact absurd hle (by omega)
    | succ f' =>
      have hff : f ≤ f' := by omega
      cases fields with
      | nil =>
        simp only [get_definitions] at h ⊢
        exact h
      | cons p rest =>
        obtain ⟨fn, fv⟩ := p
        cases hrn : refName fv with
        | none =>
          rw [gd_cons_none sc f st fn fv rest known hrn] at h
          rw [gd_cons_none sc f' st fn fv rest known hrn]
          exact ih f' hff st rest known r st' h hr
        | some obj =>
          by_cases hk : (known.find? (fun p => p.1 = obj)).isSome
          · rw [gd_cons_known sc f st fn fv obj rest known hrn hk] at h
            rw [gd_cons_known sc f' st fn fv obj rest known hrn hk]
            exact ih f' hff st rest known r st' h hr
          · have hk' : (known.find? (fun p => p.1 = obj)).isSome = false :=
              Bool.eq_false_iff.mpr hk
            rw [gd_cons_new sc f st fn fv obj rest known hrn hk'] at h
            rw [gd_cons_new sc f' st fn fv obj rest known hrn hk']
            cases ho : get_object sc f st (.str obj) with
            | mk ro st₁ =>
              rw [ho] at h
              cases ro with
              | error e =>
                have h' : ((Except.error e :
                    Except PyError (List (String × Dict))), st₁) = (r, st') := h
                simp only [Prod.mk.injEq] at h'
                have hne : (Except.error e : Except PyError Dict)
                    ≠ .error .recursionError := by
                  intro hh
                  apply hr
                  rw [← h'.1]
                  cases hh
                  rfl
                rw [get_object_mono sc f f' hff st (.str obj) (.error e) st₁ ho hne]
                exact h
              | ok defn =>
                rw [get_object_mono sc f f' hff st (.str obj) (.ok defn) st₁ ho (by simp)]
                try simp only [] at h ⊢
                cases hfd : fieldsOfDefn defn with
                | error e =>
                  rw [hfd] at h
                  exact h
                | ok dfields =>
                  rw [hfd] at h
                  try simp only [] at h ⊢
                  cases hin : get_definitions sc f st₁ dfields (known ++ [(obj, defn)]) with
                  | mk rin st₂ =>
                    rw [hin] at h
                    cases rin with
                    | error e =>
                      have h' : ((Except.error e :
                          Except PyError (List (String × Dict))), st₂) = (r, st') := h
                      simp only [Prod.mk.injEq] at h'
                      have hne : (Except.error e :
                          Except PyError (List (String × Dict)))
                          ≠ .error .recursionError := by
                        rw [h'.1]
                        exact hr
                      rw [ih f' hff st₁ dfields (known ++ [(obj, defn)])
                        (.error e) st₂ hin hne]
                      exact h
                    | ok known₂ =>
                      rw [ih f' hff st₁ dfields (known ++ [(obj, defn)])
                        (.ok known₂) st₂ hin (by simp)]
                      exact ih f' hff st₂ rest known₂ r st' h hr

theorem gd_main (sc : Schema) :
    ∀ fuel st fields known defs st',
      get_definitions sc fuel st fields known = (.ok defs, st') →
      (known.map Prod.fst).Nodup →
      (∃ new, defs = known ++ new) ∧
      (defs.map Prod.fst).Nodup ∧
      (∀ n, n ∈ refsOf fields → n ∈ defs.map Prod.fst) ∧
      (∀ m dm, (m, dm) ∈ defs → m ∉ known.map Prod.fst →
        ∃ fs, fieldsOfDefn dm = .ok fs ∧
          ∀ n, n ∈ refsOf fs → n ∈ defs.map Prod.fst) ∧
      (∀ m, m ∈ defs.map Prod.fst → m ∉ known.map Prod.fst →
        Reaches (known.map Prod.fst) defs fields m) := by
  intro fuel
  induction fuel with
  | zero =>
    intro st fields known defs st' h hnd
    simp [get_definitions] at h
  | succ f ih =>
    intro st fields known defs st' h hnd
    cases fields with
    | nil =>
      simp only [get_definitions, Prod.mk.injEq, Except.ok.injEq] at h
      obtain ⟨hdefs, _⟩ := h
      subst hdefs
      refine ⟨⟨[], by simp⟩, hnd, by simp [refsOf], ?_, ?_⟩
      · intro m dm hmem hnot
        exact absurd (mem_keys_of_mem hmem) hnot
      · intro m hmem hnot
        exact absurd hmem hnot
    | cons p rest =>
      obtain ⟨fn, fv⟩ := p
      cases hrn : refName fv with
      | none =>
        rw [gd_cons_none sc f st fn fv rest known hrn] at h
        obtain ⟨hi, hii, hiii, hiv, hv⟩ := ih st rest known defs st' h hnd
        refine ⟨hi, hii, ?_, hiv, ?_⟩
        · intro n hn
          apply hiii
          simpa [refsOf, List.filterMap_cons, hrn] using hn
        · intro m hm hnot
          exact reaches_mono (hv m hm hnot) (fun x hx => hx) (fun q hq => hq)
            (fun q hq => List.mem_cons_of_mem _ hq)
      | some obj =>
        by_cases hk : (known.find? (fun p => p.1 = obj)).isSome
        · rw [gd_cons_known sc f st fn fv obj rest known hrn hk] at h
          obtain ⟨hi, hii, hiii, hiv, hv⟩ := ih st rest known defs st' h hnd
          have hobjk : obj ∈ known.map Prod.fst := (find?_key_isSome_iff known obj).mp hk
          refine ⟨hi, hii, ?_, hiv, ?_⟩
          · intro n hn
            rw [show refsOf ((fn, fv) :: rest) = obj :: refsOf rest from by
              simp [refsOf, List.filterMap_cons, hrn]] at hn
            rcases List.mem_cons.mp hn with he | he
            · obtain ⟨new, hnew⟩ := hi
              rw [he, hnew, List.map_append]
              exact List.mem_append_left _ hobjk
            · exact hiii n he
          · intro m hm hnot
            exact reaches_mono (hv m hm hnot) (fun x hx => hx) (fun q hq => hq)
              (fun q hq => List.mem_cons_of_mem _ hq)
        · have hk' : (known.find? (fun p => p.1 = obj)).isSome = false :=
            Bool.eq_false_iff.mpr hk
          have hobjnk : obj ∉ known.map Prod.fst :=
            fun hx => hk ((find?_key_isSome_iff known obj).mpr hx)
          rw [gd_cons_new sc f st fn fv obj rest known hrn hk'] at h
          cases ho : get_object sc f st (.str obj) with
          | mk ro st₁ =>
            rw [ho] at h
            cases ro with
            | error e =>
              have h' : ((Except.error e : Except PyError (List (String × Dict))), st₁)
                  = (.ok defs, st') := h
              simp at h'
            | ok defn =>
              try simp only [] at h
              cases hfd : fieldsOfDefn defn with
              | error e =>
                rw [hfd] at h
                have h' : ((Except.error e : Except PyError (List (String × Dict))), st₁)
                    = (.ok defs, st') := h
                simp at h'
              | ok dfields =>
                rw [hfd] at h
                try simp only [] at h
                cases hin : get_definitions sc f st₁ dfields (known ++ [(obj, defn)]) with
                | mk rin st₂ =>
                  rw [hin] at h
                  cases rin with
                  | error e =>
                    have h' : ((Except.error e : Except PyError (List (String × Dict))), st₂)
                        = (.ok defs, st') := h
                    simp at h'
                  | ok known₂ =>
                    replace h : get_definitions sc f st₂ rest known₂ = (.ok defs, st') := h
                    have hnd' : ((known ++ [(obj, defn)]).map Prod.fst).Nodup := by
                      rw [List.map_append, List.nodup_append]
                      refine ⟨hnd, by simp, ?_⟩
                      intro x hx
                      simp only [List.map_cons, List.map_nil, List.mem_singleton]
                      intro he
                      exact hobjnk (he ▸ hx)
                    obtain ⟨hi₁, hii₁, hiii₁, hiv₁, hv₁⟩ :=
                      ih st₁ dfields (known ++ [(obj, defn)]) known₂ st₂ hin hnd'
                    obtain ⟨hi₂, hii₂, hiii₂, hiv₂, hv₂⟩ :=
                      ih st₂ rest known₂ defs st' h hii₁
                    obtain ⟨new₁, hnew₁⟩ := hi₁
                    obtain ⟨new₂, hnew₂⟩ := hi₂
                    have hks : ∀ x, x ∈ known₂.map Prod.fst → x ∈ defs.map Prod.fst := by
                      intro x hx
                      rw [hnew₂, List.map_append]
                      exact List.mem_append_left _ hx
                    have hobj_in_k₂ : (obj, defn) ∈ known₂ := by
                      rw [hnew₁]
                      exact List.mem_append_left _ (List.mem_append_right _ (by simp))
                    have hentries₂ : ∀ q, q ∈ known₂ → q ∈ defs := by
                      intro q hq
                      rw [hnew₂]
                      exact List.mem_append_left _ hq
                    have hobj_in_defs : (obj, defn) ∈ defs := hentries₂ _ hobj_in_k₂
                    have hksub : ∀ x, x ∈ known.map Prod.fst → x ∈ known₂.map Prod.fst := by
                      intro x hx
                      rw [hnew₁, List.map_append, List.map_append]
                      exact List.mem_append_left _ (List.mem_append_left _ hx)
                    have hrefs_cons : refsOf ((fn, fv) :: rest) = obj :: refsOf rest := by
                      simp [refsOf, List.filterMap_cons, hrn]
                    have hnotk' : ∀ m, m ≠ obj → m ∉ known.map Prod.fst →
                        m ∉ (known ++ [(obj, defn)]).map Prod.fst := by
                      intro m hmo hmk hx
                      rw [List.map_append] at hx
                      rcases List.mem_append.mp hx with hx | hx
                      · exact hmk hx
                      · simp only [List.map_cons, List.map_nil, List.mem_singleton] at hx
                        exact hmo hx
                    refine ⟨?_, hii₂, ?_, ?_, ?_⟩
                    · refine ⟨[(obj, defn)] ++ new₁ ++ new₂, ?_⟩
                      rw [hnew₂, hnew₁]
                      simp [List.append_assoc]
                    · intro n hn
                      rw [hrefs_cons] at hn
                      rcases List.mem_cons.mp hn with he | he
                      · rw [he]
                        exact hks _ (mem_keys_of_mem hobj_in_k₂)
                      · exact hiii₂ n he
                    · intro m dm hmem hnot
                      by_cases hmk₂ : m ∈ known₂.map Prod.fst
                      · obtain ⟨q, hq, hqe⟩ := List.mem_map.mp hmk₂
                        obtain ⟨m', dm'⟩ := q
                        simp only [] at hqe
                        subst hqe
                        by_cases hmo : m' = obj
                        · subst hmo
                          have hdm : dm = defn := entry_unique hii₂ hmem hobj_in_defs
                          refine ⟨dfields, hdm ▸ hfd, fun n hn => hks _ (hiii₁ n hn)⟩
                        · have hdm : dm = dm' := entry_unique hii₂ hmem (hentries₂ _ hq)
                          obtain ⟨fs, hfs, href⟩ := hiv₁ m' dm' hq (hnotk' m' hmo hnot)
                          exact ⟨fs, hdm ▸ hfs, fun n hn => hks _ (href n hn)⟩
                      · exact hiv₂ m dm hmem hmk₂
                    · intro m hm hnot
                      by_cases hmo : m = obj
                      · rw [hmo]
                        exact Reaches.base (List.mem_cons_self _ _) hrn
                      · by_cases hmk₂ : m ∈ known₂.map Prod.fst
                        · have hr₁ := hv₁ m hmk₂ (hnotk' m hmo hnot)
                          have hr₁' : Reaches ((known ++ [(obj, defn)]).map Prod.fst)
                              defs dfields m :=
                            reaches_mono hr₁ (fun x hx => hx) hentries₂ (fun q hq => hq)
                          have hkeq : (known ++ [(obj, defn)]).map Prod.fst
                              = known.map Prod.fst ++ [obj] := by simp
                          rw [hkeq] at hr₁'
                          exact reaches_transfer hr₁' (List.mem_cons_self (fn, fv) rest)
                            hrn hobjnk hobj_in_defs hfd
                        · exact reaches_mono (hv₂ m hm hmk₂) hksub (fun q hq => hq)
                            (fun q hq => List.mem_cons_of_mem _ hq)

theorem reaches_closed {known defs : List (String × Dict)}
    {fields : List (String × JVal)}
    (hiii : ∀ n, n ∈ refsOf fields → n ∈ defs.map Prod.fst)
    (hiv : ∀ m dm, (m, dm) ∈ defs → m ∉ known.map Prod.fst →
      ∃ fs, fieldsOfDefn dm = .ok fs ∧
        ∀ n, n ∈ refsOf fs → n ∈ defs.map Prod.fst) :
    ∀ n, Reaches (known.map Prod.fst) defs fields n → n ∈ defs.map Prod.fst := by
  intro n h
  induction h with
  | base hf hr => exact hiii _ (List.mem_filterMap.mpr ⟨_, hf, hr⟩)
  | step hm hnot hmem hfd hf hr ih =>
    obtain ⟨fs', hfs', href⟩ := hiv _ _ hmem hnot
    rw [hfd] at hfs'
    injection hfs' with hfs
    subst hfs
    exact href _ (List.mem_filterMap.mpr ⟨_, hf, hr⟩)

/-- C2: whenever the Definition Collector returns a definitions mapping
(from a known-definitions accumulator with no duplicate names), then
(a) giving it any more fuel returns the same result — its recursion has
terminated and needs no work proportional to the number of reference
edges; (b) the accumulated entries are preserved (a referenced name
already present is skipped, never re-resolved or overwritten); (c) the
result has no duplicate names; and (d) the result's names are exactly
the known names plus the object names reachable through `$ref` edges
from the walked fields — one entry per distinct reachable name. -/
theorem C2_definition_collector_closure (sc : Schema) (fuel : Nat) (st st' : St)
    (fields : List (String × JVal)) (known defs : List (String × Dict))
    (hnd : (known.map Prod.fst).Nodup)
    (h : get_definitions sc fuel st fields known = (.ok defs, st')) :
    (∀ fuel', fuel ≤ fuel' →
      get_definitions sc fuel' st fields known = (.ok defs, st')) ∧
    (∃ new, defs = known ++ new) ∧
    (defs.map Prod.fst).Nodup ∧
    (∀ n, n ∈ defs.map Prod.fst ↔
      n ∈ known.map Prod.fst ∨ Reaches (known.map Prod.fst) defs fields n) := by
  obtain ⟨hi, hii, hiii, hiv, hv⟩ := gd_main sc fuel st fields known defs st' h hnd
  refine ⟨fun fuel' hle =>
    get_definitions_mono sc fuel fuel' hle st fields known _ st' h (by simp),
    hi, hii, ?_⟩
  intro n
  constructor
  · intro hn
    by_cases hk : n ∈ known.map Prod.fst
    · exact Or.inl hk
    · exact Or.inr (hv n hn hk)
  · rintro (hk | hr)
    · obtain ⟨new, hnew⟩ := hi
      rw [hnew, List.map_append]
      exact List.mem_append_left _ hk
    · exact reaches_closed hiii hiv n hr

/-- A two-object document whose objects reference each other through
`$ref` (`a.x` refers to `b`, `b.y` refers back to `a`): a reference
cycle the collector must not loop on. -/
def C2objects : Dict :=
  [("a", .dict [("description", .str "Object a."),
                ("attributes", .dict
                  [("x", .dict [("description", .str "Ref to b."),
                                ("object_type", .str "b")])])]),
   ("b", .dict [("description", .str "Object b."),
                ("attributes", .dict
                  [("y", .dict [("description", .str "Ref to a."),
                                ("object_type", .str "a")])])])]

def C2sc : Schema := { types := [], objects := C2objects, classes := [] }

/-- A walked fields mapping with a single field referencing `a`. -/
def C2fieldsW : List (String × JVal) :=
  [("root", .dict [("type", .str "object"), ("$ref", .str "#/definitions/a")])]

def C2fieldX : Dict :=
  [("type", .str "object"), ("$ref", .str "#/definitions/b"),
   ("title", .str "x"), ("description", .str "Ref to b."), ("tags", .arr [])]

def C2fieldY : Dict :=
  [("type", .str "object"), ("$ref", .str "#/definitions/a"),
   ("title", .str "y"), ("description", .str "Ref to a."), ("tags", .arr [])]

def C2defA : Dict :=
  [("name", .str "a"), ("description", .str "Object a."),
   ("type", .str "object"), ("fields", .dict [("x", .dict C2fieldX)])]

def C2defB : Dict :=
  [("name", .str "b"), ("description", .str "Object b."),
   ("type", .str "object"), ("fields", .dict [("y", .dict C2fieldY)])]

def C2defs : List (String × Dict) := [("a", C2defA), ("b", C2defB)]

def C2st : St :=
  { tcache := [(.null, [])],
    ocache := [(.null, []), (.str "a", C2defA), (.str "b", C2defB)],
    warnings := [] }

theorem C2_witness :
    get_definitions C2sc 50 St.init C2fieldsW [] = (.ok C2defs, C2st) ∧
    C2defs.map Prod.fst = ["a", "b"] ∧
    (C2defs.map Prod.fst).Nodup ∧
    Reaches [] C2defs C2fieldsW "b" := by
  obtain ⟨hmono, _, hnd, hiff⟩ :=
    C2_definition_collector_closure C2sc 10 St.init C2st C2fieldsW [] C2defs
      List.nodup_nil rfl
  refine ⟨hmono 50 (by decide), rfl, hnd, ?_⟩
  have hb := (hiff "b").mp (by decide)
  rcases hb with hk | hr
  · exact absurd hk (by simp)
  · exact hr

end Ocsf
